import Mathlib

/-!
# Verification of the longhouse shipper engine

Shallow embedding of the core of `apps/engine` (Rust): the per-file offset
state store (`state/file_state.rs`), the bounded retry spool
(`state/spool.rs`), the HTTP outcome classification (`shipping/client.rs`),
the delivery state machine (`shipper.rs`), the presence outbox drain
(`outbox.rs`) and the incremental JSONL parser (`pipeline/parser.rs`).

Machine integers (`u64` byte offsets) are modelled as `Nat`: every offset in
the source originates from `std::fs::Metadata::len`/line arithmetic and is
never subtracted below zero, so no wrap-around is reachable.  SQLite rows
are modelled as association lists keyed by path, with the `INSERT ... ON
CONFLICT ... DO UPDATE` statements translated clause by clause.  Wall-clock
values (`Utc::now`) are passed in explicitly as parameters.
-/

namespace Longhouse

/-! ## State store: `state/file_state.rs`

A row of the `file_state` table.  `last_updated` is an abstract clock value
(the source stores an RFC 3339 string obtained from `Utc::now`). -/

structure FileRow where
  provider : String
  queued_offset : Nat
  acked_offset : Nat
  session_id : String
  provider_session_id : String
  last_updated : Nat
  deriving Repr, DecidableEq

/-- The `file_state` table: one row per path (path is the primary key).
Modelled as an association list; lookups take the first match. -/
abbrev FileDB := List (String × FileRow)

namespace FileDB

def lookup (db : FileDB) (p : String) : Option FileRow :=
  match db with
  | [] => none
  | kv :: rest => if kv.1 = p then some kv.2 else lookup (rest : FileDB) p

/-- Models `FileState::get_offset`: `SELECT acked_offset ... | 0` when not tracked. -/
def get_offset (db : FileDB) (p : String) : Nat :=
  match db.lookup p with
  | some r => r.acked_offset
  | none => 0

/-- Models `FileState::get_queued_offset`. -/
def get_queued_offset (db : FileDB) (p : String) : Nat :=
  match db.lookup p with
  | some r => r.queued_offset
  | none => 0

/-- Replace the row at key `p` by `r` (first occurrence), used to model the
SQL `UPDATE`/upsert statements. -/
def setRow (db : FileDB) (p : String) (r : FileRow) : FileDB :=
  match db with
  | [] => []
  | kv :: rest =>
    if kv.1 = p then (p, r) :: (rest : FileDB)
    else kv :: setRow (rest : FileDB) p r

/-- Models `FileState::set_offset`: upsert; on insert both cursors become
`MAX(offset, 0) = offset`, on conflict
`queued_offset = MAX(queued_offset, offset)`,
`acked_offset = MAX(acked_offset, offset)`, session columns overwritten. -/
def set_offset (db : FileDB) (p : String) (offset : Nat)
    (sid psid prov : String) (now : Nat) : FileDB :=
  match db.lookup p with
  | none => (p, ⟨prov, offset, offset, sid, psid, now⟩) :: db
  | some r =>
    db.setRow p { r with
      queued_offset := max r.queued_offset offset
      acked_offset := max r.acked_offset offset
      session_id := sid
      provider_session_id := psid
      last_updated := now }

/-- Models `FileState::set_queued_offset`: upsert; on insert `acked_offset = 0`;
on conflict only `queued_offset = MAX(queued_offset, offset)` advances.
The source binds non-null strings, so the `COALESCE(?4, session_id)`
always picks the new value. -/
def set_queued_offset (db : FileDB) (p : String) (offset : Nat)
    (prov sid psid : String) (now : Nat) : FileDB :=
  match db.lookup p with
  | none => (p, ⟨prov, offset, 0, sid, psid, now⟩) :: db
  | some r =>
    db.setRow p { r with
      queued_offset := max r.queued_offset offset
      session_id := sid
      provider_session_id := psid
      last_updated := now }

/-- Models `FileState::set_acked_offset`: plain `UPDATE ... WHERE path = ?`; a
missing row is left untouched (the statement matches no row). -/
def set_acked_offset (db : FileDB) (p : String) (offset : Nat) (now : Nat) :
    FileDB :=
  match db.lookup p with
  | none => db
  | some r =>
    db.setRow p { r with
      acked_offset := max r.acked_offset offset
      last_updated := now }

/-- Models `FileState::reset_offsets`: unconditional zeroing of both cursors. -/
def reset_offsets (db : FileDB) (p : String) (now : Nat) : FileDB :=
  match db.lookup p with
  | none => db
  | some r =>
    db.setRow p { r with
      queued_offset := 0
      acked_offset := 0
      last_updated := now }

/-- Models `FileState::get_unacked_files`: rows with `queued_offset > acked_offset`. -/
def get_unacked_files (db : FileDB) : List (String × FileRow) :=
  db.filter (fun kv => kv.2.acked_offset < kv.2.queued_offset)

/-- The dual-cursor invariant of the spec: `acked_offset ≤ queued_offset`
for every tracked file (`0 ≤ acked_offset` holds by the `Nat` model). -/
def CursorInv (db : FileDB) : Prop :=
  ∀ kv ∈ db, kv.2.acked_offset ≤ kv.2.queued_offset

instance (db : FileDB) : Decidable (db.CursorInv) := by
  unfold CursorInv
  exact List.decidableBAll _ db

end FileDB

/-! ## Retry spool: `state/spool.rs` -/

/-- Models `MAX_QUEUE_SIZE` in `spool.rs`. -/
def MAX_QUEUE_SIZE : Nat := 10000

inductive SpoolStatus
  | pending
  | dead
  deriving Repr, DecidableEq

/-- A row of the `spool_queue` table. -/
structure SpoolEntry where
  id : Nat
  provider : String
  file_path : String
  start_offset : Nat
  end_offset : Nat
  session_id : Option String
  created_at : Nat
  retry_count : Nat
  next_retry_at : Nat
  last_error : Option String
  status : SpoolStatus
  deriving Repr, DecidableEq

/-- The `spool_queue` table plus the auto-increment counter. -/
structure Spool where
  entries : List SpoolEntry
  nextId : Nat
  deriving Repr, DecidableEq

namespace Spool

def empty : Spool := ⟨[], 0⟩

/-- Models `Spool::total_size`: `SELECT COUNT(*)`. -/
def total_size (s : Spool) : Nat := s.entries.length

/-- Models `Spool::pending_count`. -/
def pending_count (s : Spool) : Nat :=
  (s.entries.filter (fun e => e.status = SpoolStatus.pending)).length

/-- Models `Spool::enqueue`: rejects (returns `false`, no insert) when
`total_size ≥ MAX_QUEUE_SIZE`; otherwise inserts a pending row with
`next_retry_at = now`. -/
def enqueue (s : Spool) (provider file_path : String)
    (start_offset end_offset : Nat) (session_id : Option String)
    (now : Nat) : Bool × Spool :=
  if MAX_QUEUE_SIZE ≤ s.total_size then
    (false, s)
  else
    (true,
      ⟨s.entries ++
        [⟨s.nextId, provider, file_path, start_offset, end_offset,
          session_id, now, 0, now, none, SpoolStatus.pending⟩],
        s.nextId + 1⟩)

/-- Insertion sort by `created_at` (stable), modelling
`ORDER BY created_at ASC`. -/
def insertByCreated (e : SpoolEntry) : List SpoolEntry → List SpoolEntry
  | [] => [e]
  | x :: xs =>
    if x.created_at ≤ e.created_at then x :: insertByCreated e xs
    else e :: x :: xs

def sortByCreated : List SpoolEntry → List SpoolEntry
  | [] => []
  | x :: xs => insertByCreated x (sortByCreated xs)

/-- Models `Spool::dequeue_batch`: pending rows with `next_retry_at ≤ now`,
ordered by `created_at` ascending, limited to `limit`. -/
def dequeue_batch (s : Spool) (limit : Nat) (now : Nat) : List SpoolEntry :=
  (sortByCreated (s.entries.filter
    (fun e => e.status = SpoolStatus.pending ∧ e.next_retry_at ≤ now))).take
    limit

/-- Models `Spool::mark_shipped`: `DELETE ... WHERE id = ?`. -/
def mark_shipped (s : Spool) (id : Nat) : Spool :=
  ⟨s.entries.filter (fun e => e.id ≠ id), s.nextId⟩

/-- The backoff schedule `min(5 * 2^n, 3600)` of `mark_failed_with_max`
(the source computes it in `f64`; the values are exact integers until the
cap, so `Nat` arithmetic coincides). -/
def backoffSecs (n : Nat) : Nat := min (5 * 2 ^ n) 3600

/-- Models `Spool::mark_failed_with_max`: bump `retry_count`; at or above
`max_retries` flip to `dead`, otherwise push `next_retry_at` into the
future.  (On an absent id the SQL `query_row` errors; that path is
unreachable from the replay loop, which only marks dequeued rows, and is
modelled as a no-op.) -/
def mark_failed_with_max (s : Spool) (id : Nat) (error : String)
    (max_retries : Nat) (now : Nat) : Spool :=
  ⟨s.entries.map (fun e =>
    if e.id = id then
      let new_count := e.retry_count + 1
      if max_retries ≤ new_count then
        { e with status := SpoolStatus.dead, retry_count := new_count
                 last_error := some error }
      else
        { e with retry_count := new_count, last_error := some error
                 next_retry_at := now + backoffSecs new_count }
    else e), s.nextId⟩

/-- Models `DEFAULT_MAX_RETRIES` in `spool.rs`. -/
def DEFAULT_MAX_RETRIES : Nat := 50

/-- Models `Spool::mark_failed`. -/
def mark_failed (s : Spool) (id : Nat) (error : String) (now : Nat) : Spool :=
  s.mark_failed_with_max id error DEFAULT_MAX_RETRIES now

/-- Models `Spool::cleanup`: delete dead rows older than 7 days, then pending rows
older than 7 days (`cutoff = now - 7 days`, passed here directly). -/
def cleanup (s : Spool) (cutoff : Nat) : Spool :=
  ⟨(s.entries.filter (fun e =>
      ¬(e.status = SpoolStatus.dead ∧ e.created_at < cutoff))).filter
    (fun e => ¬(e.status = SpoolStatus.pending ∧ e.created_at < cutoff)),
    s.nextId⟩

end Spool

/-! ## JSON values: model of `serde_json`

The source keeps message bodies as `serde_json::value::RawValue` (raw text)
and re-parses fragments on demand.  The model parses once into a `Json`
tree; where the source inspects the raw text (`starts_with('{')`, fallback
"raw JSON as a string") the model uses the equivalent structural test or a
canonical re-rendering.  Numbers are kept as their source text and never
interpreted; the number grammar accepted here is a superset of
`serde_json`'s, which no theorem depends on. -/

inductive Json
  | null
  | bool (b : Bool)
  | num (s : String)
  | str (s : String)
  | arr (items : List Json)
  | obj (fields : List (String × Json))
  deriving Repr, Inhabited

namespace Json

/-- Field lookup on an object (first occurrence; `serde` rejects duplicate
struct fields, and no modelled input has any). -/
def lookup (j : Json) (k : String) : Option Json :=
  match j with
  | .obj fields =>
    match fields.find? (fun f => f.1 = k) with
    | some f => some f.2
    | none => none
  | _ => none

end Json

/-- JSON insignificant whitespace. -/
def isJsonWs (c : Char) : Bool :=
  c = ' ' ∨ c = '\t' ∨ c = '\n' ∨ c = '\r'

def skipWs (cs : List Char) : List Char := cs.dropWhile isJsonWs

def hexDigitVal (c : Char) : Option Nat :=
  if '0' ≤ c ∧ c ≤ '9' then some (c.toNat - '0'.toNat)
  else if 'a' ≤ c ∧ c ≤ 'f' then some (c.toNat - 'a'.toNat + 10)
  else if 'A' ≤ c ∧ c ≤ 'F' then some (c.toNat - 'A'.toNat + 10)
  else none

/-- Parse the remainder of a JSON string literal (after the opening quote).
Escapes: the simple ones plus `\uXXXX` taken as a single scalar value
(surrogate pairs are not combined; no modelled input uses them). -/
def parseStringRest (acc : List Char) : List Char → Option (String × List Char)
  | [] => none
  | '"' :: rest => some (String.mk acc.reverse, rest)
  | '\\' :: e :: rest =>
    match e with
    | '"' => parseStringRest ('"' :: acc) rest
    | '\\' => parseStringRest ('\\' :: acc) rest
    | '/' => parseStringRest ('/' :: acc) rest
    | 'b' => parseStringRest ('\x08' :: acc) rest
    | 'f' => parseStringRest ('\x0c' :: acc) rest
    | 'n' => parseStringRest ('\n' :: acc) rest
    | 'r' => parseStringRest ('\r' :: acc) rest
    | 't' => parseStringRest ('\t' :: acc) rest
    | 'u' =>
      match rest with
      | h1 :: h2 :: h3 :: h4 :: rest' =>
        match hexDigitVal h1, hexDigitVal h2, hexDigitVal h3, hexDigitVal h4 with
        | some a, some b, some c, some d =>
          parseStringRest (Char.ofNat (((a * 16 + b) * 16 + c) * 16 + d) :: acc) rest'
        | _, _, _, _ => none
      | _ => none
    | _ => none
  | c :: rest => parseStringRest (c :: acc) rest

def isNumChar (c : Char) : Bool :=
  c.isDigit ∨ c = '-' ∨ c = '+' ∨ c = '.' ∨ c = 'e' ∨ c = 'E'

mutual

def parseValue (fuel : Nat) (cs : List Char) : Option (Json × List Char) :=
  match fuel with
  | 0 => none
  | fuel' + 1 =>
    match skipWs cs with
    | '\x7b' :: rest => parseObjRest fuel' rest
    | '[' :: rest => parseArrRest fuel' rest
    | '"' :: rest =>
      match parseStringRest [] rest with
      | some (s, r) => some (Json.str s, r)
      | none => none
    | 't' :: 'r' :: 'u' :: 'e' :: rest => some (Json.bool true, rest)
    | 'f' :: 'a' :: 'l' :: 's' :: 'e' :: rest => some (Json.bool false, rest)
    | 'n' :: 'u' :: 'l' :: 'l' :: rest => some (Json.null, rest)
    | c :: rest =>
      if c = '-' ∨ c.isDigit then
        let digits := rest.takeWhile isNumChar
        some (Json.num (String.mk (c :: digits)), rest.drop digits.length)
      else none
    | [] => none

def parseObjRest (fuel : Nat) (cs : List Char) : Option (Json × List Char) :=
  match fuel with
  | 0 => none
  | fuel' + 1 =>
    match skipWs cs with
    | '\x7d' :: rest => some (Json.obj [], rest)
    | _ => parseObjFields fuel' cs []

def parseObjFields (fuel : Nat) (cs : List Char)
    (acc : List (String × Json)) : Option (Json × List Char) :=
  match fuel with
  | 0 => none
  | fuel' + 1 =>
    match skipWs cs with
    | '"' :: rest =>
      match parseStringRest [] rest with
      | none => none
      | some (k, r1) =>
        match skipWs r1 with
        | ':' :: r2 =>
          match parseValue fuel' r2 with
          | none => none
          | some (v, r3) =>
            match skipWs r3 with
            | ',' :: r4 => parseObjFields fuel' r4 (acc ++ [(k, v)])
            | '\x7d' :: r4 => some (Json.obj (acc ++ [(k, v)]), r4)
            | _ => none
        | _ => none
    | _ => none

def parseArrRest (fuel : Nat) (cs : List Char) : Option (Json × List Char) :=
  match fuel with
  | 0 => none
  | fuel' + 1 =>
    match skipWs cs with
    | ']' :: rest => some (Json.arr [], rest)
    | _ => parseArrItems fuel' cs []

def parseArrItems (fuel : Nat) (cs : List Char) (acc : List Json) :
    Option (Json × List Char) :=
  match fuel with
  | 0 => none
  | fuel' + 1 =>
    match parseValue fuel' cs with
    | none => none
    | some (v, r1) =>
      match skipWs r1 with
      | ',' :: r2 => parseArrItems fuel' r2 (acc ++ [v])
      | ']' :: r2 => some (Json.arr (acc ++ [v]), r2)
      | _ => none

end

/-- Models `serde_json::from_str` / `from_slice` producing a value tree:
parse one JSON value and require only trailing whitespace after it. -/
def parseJson (s : String) : Option Json :=
  match parseValue (s.data.length + 1) s.data with
  | some (v, rest) => if skipWs rest = [] then some v else none
  | none => none

/-- Canonical re-rendering of a `Json` value, standing in for the raw text a
`RawValue` carries.  Recursion is by a fuel bounded by `sizeOf`, which
strictly decreases from parent to child. -/
def renderEscape (s : String) : String :=
  String.mk (s.data.foldr (fun c acc =>
    if c = '"' then '\\' :: '"' :: acc
    else if c = '\\' then '\\' :: '\\' :: acc
    else if c = '\n' then '\\' :: 'n' :: acc
    else if c = '\r' then '\\' :: 'r' :: acc
    else if c = '\t' then '\\' :: 't' :: acc
    else c :: acc) [])

def renderJson (j : Json) : String :=
  match j with
  | .null => "null"
  | .bool true => "true"
  | .bool false => "false"
  | .num s => s
  | .str s => "\"" ++ renderEscape s ++ "\""
  | .arr items =>
    "[" ++ String.intercalate ","
      (items.attach.map (fun x => renderJson x.1)) ++ "]"
  | .obj fields =>
    "\x7b" ++ String.intercalate ","
      (fields.attach.map (fun f =>
        "\"" ++ renderEscape f.1.1 ++ "\":" ++ renderJson f.1.2)) ++
      "\x7d"
termination_by sizeOf j
decreasing_by
  · have h := List.sizeOf_lt_of_mem x.2
    simp only [Json.arr.sizeOf_spec]
    omega
  · rcases f with ⟨⟨k, v⟩, hm⟩
    have h := List.sizeOf_lt_of_mem hm
    simp only [Prod.mk.sizeOf_spec] at h
    simp only [Json.obj.sizeOf_spec]
    omega

/-! ## Timestamps: model of `chrono`

The source parses RFC 3339 strings via `DateTime::parse_from_rfc3339` and
converts to UTC.  The model maps a restricted RFC 3339 grammar
(`YYYY-MM-DDTHH:MM:SS[.frac](Z|±HH:MM)`, fractional seconds ignored) to
seconds since the Unix epoch as an `Int`.  Calendar validation is looser
than chrono's (any day 1–31 is accepted); no claim depends on rejected
calendar corner cases, only on parse results being a deterministic function
of the input string. -/

def digitsToNat (cs : List Char) : Nat :=
  cs.foldl (fun acc c => acc * 10 + (c.toNat - '0'.toNat)) 0

def takeDigits (n : Nat) (cs : List Char) : Option (Nat × List Char) :=
  let ds := cs.take n
  if ds.length = n ∧ ds.all Char.isDigit then some (digitsToNat ds, cs.drop n)
  else none

/-- Days from civil date (proleptic Gregorian), the standard algorithm. -/
def daysFromCivil (y : Int) (m d : Nat) : Int :=
  let y' : Int := if m ≤ 2 then y - 1 else y
  let era : Int := (if 0 ≤ y' then y' else y' - 399) / 400
  let yoe : Int := y' - era * 400
  let mp : Nat := (m + 9) % 12
  let doy : Int := (153 * (mp : Int) + 2) / 5 + (d : Int) - 1
  let doe : Int := yoe * 365 + yoe / 4 - yoe / 100 + doy
  era * 146097 + doe - 719468

def parseRfc3339 (s : String) : Option Int :=
  match takeDigits 4 s.data with
  | none => none
  | some (y, r1) =>
    match r1 with
    | '-' :: r2 =>
      match takeDigits 2 r2 with
      | none => none
      | some (mo, r3) =>
        match r3 with
        | '-' :: r4 =>
          match takeDigits 2 r4 with
          | none => none
          | some (d, r5) =>
            match r5 with
            | 'T' :: r6 =>
              match takeDigits 2 r6 with
              | none => none
              | some (h, r7) =>
                match r7 with
                | ':' :: r8 =>
                  match takeDigits 2 r8 with
                  | none => none
                  | some (mi, r9) =>
                    match r9 with
                    | ':' :: r10 =>
                      match takeDigits 2 r10 with
                      | none => none
                      | some (sec, r11) =>
                        let r12 :=
                          match r11 with
                          | '.' :: rf =>
                            if (rf.takeWhile Char.isDigit) = [] then r11
                            else rf.dropWhile Char.isDigit
                          | _ => r11
                        let offMins : Option (Int × List Char) :=
                          match r12 with
                          | 'Z' :: rz => some (0, rz)
                          | 'z' :: rz => some (0, rz)
                          | '+' :: ro =>
                            match takeDigits 2 ro with
                            | some (oh, ro1) =>
                              match ro1 with
                              | ':' :: ro2 =>
                                match takeDigits 2 ro2 with
                                | some (om, ro3) =>
                                  some ((oh * 60 + om : Nat), ro3)
                                | none => none
                              | _ => none
                            | none => none
                          | '-' :: ro =>
                            match takeDigits 2 ro with
                            | some (oh, ro1) =>
                              match ro1 with
                              | ':' :: ro2 =>
                                match takeDigits 2 ro2 with
                                | some (om, ro3) =>
                                  some (-((oh * 60 + om : Nat) : Int), ro3)
                                | none => none
                              | _ => none
                            | none => none
                          | _ => none
                        match offMins with
                        | some (off, rrest) =>
                          if rrest = [] ∧ 1 ≤ mo ∧ mo ≤ 12 ∧ 1 ≤ d ∧ d ≤ 31 ∧
                              h ≤ 23 ∧ mi ≤ 59 ∧ sec ≤ 60 then
                            some (daysFromCivil (y : Int) mo d * 86400 +
                              ((h * 3600 + mi * 60 + sec : Nat) : Int) - off * 60)
                          else none
                        | none => none
                    | _ => none
                | _ => none
            | _ => none
        | _ => none
    | _ => none

/-- Models `parse_timestamp` in `pipeline/parser.rs`: empty string fails;
try RFC 3339; on failure rewrite a trailing `Z` to `+00:00` and retry
(chrono already accepts `Z`, so the rewrite branch is effectively dead;
it is mirrored anyway). -/
def parse_timestamp (ts : String) : Option Int :=
  if ts = "" then none
  else
    match parseRfc3339 ts with
    | some t => some t
    | none =>
      let normalized :=
        if ts.data.getLast? = some 'Z' then
          String.mk ts.data.dropLast ++ "+00:00"
        else ts
      parseRfc3339 normalized

/-! ## Parser: `pipeline/parser.rs`

File contents are modelled as `List Char` (one entry per byte; all modelled
inputs are ASCII, where bytes and chars coincide — the source's
`from_utf8(..).unwrap_or("")` lossy step has no counterpart).  The ambient
clock (`Utc::now`, used only as the per-event timestamp fallback) is a
single sampled value `now : Int`; `Uuid::new_v4` is an external stream
`gen : Nat → String` consumed through a counter, one draw per source line
that lacks a usable `uuid` field. -/

/-- Constant `MMAP_THRESHOLD` (1 MiB) in `pipeline/parser.rs`. -/
def MMAP_THRESHOLD : Nat := 1048576

inductive Role
  | user
  | assistant
  | tool
  deriving Repr, DecidableEq

/-- Models `ParsedEvent`.  `tool_input_json` is the parsed tree standing in
for the source's `Box<RawValue>` raw text. -/
structure ParsedEvent where
  uuid : String
  session_id : String
  timestamp : Int
  role : Role
  content_text : Option String
  tool_name : Option String
  tool_input_json : Option Json
  tool_output_text : Option String
  source_offset : Nat
  raw_type : String
  raw_line : Option String
  deriving Repr

/-- Models `SessionMetadata`. -/
structure SessionMetadata where
  session_id : String
  cwd : Option String
  git_branch : Option String
  project : Option String
  version : Option String
  started_at : Option Int
  ended_at : Option Int
  deriving Repr, DecidableEq

/-- Value of `SessionMetadata { session_id, ..Default::default() }`. -/
def SessionMetadata.init (sid : String) : SessionMetadata :=
  ⟨sid, none, none, none, none, none, none⟩

/-- Models `ParseResult`. -/
structure ParseResult where
  events : List ParsedEvent
  last_good_offset : Nat
  metadata : SessionMetadata
  deriving Repr

/-- Models the `RawLine` deserialization target.  `message` holds the raw
`message.content` value (`RawMessage` keeps it as `Box<RawValue>`). -/
structure RawLineR where
  type? : Option String
  timestamp : Option String
  uuid : Option String
  cwd : Option String
  gitBranch : Option String
  version : Option String
  message : Option Json
  deriving Repr

/-- Models the `ContentItem` deserialization target.  `result_content` is
the `content` field of the item, kept raw. -/
structure ContentItemR where
  type? : Option String
  text : Option String
  name : Option String
  id : Option String
  input : Option Json
  tool_use_id : Option String
  result_content : Option Json
  deriving Repr

/-- Decode an optional string field the way `serde` treats
`Option<String>`: absent or `null` is `None`; a non-string value is a
deserialization error. -/
def decodeOptString (j : Json) (k : String) : Option (Option String) :=
  match j.lookup k with
  | none => some none
  | some Json.null => some none
  | some (Json.str s) => some (some s)
  | some _ => none

/-- Models `serde_json::from_slice::<RawLine>` on an already-parsed value:
the line must be a JSON object; each `Option<String>` field must be absent,
null or a string; `message` must be absent, null, or an object containing a
`content` key. -/
def rawLineFromJson (j : Json) : Option RawLineR :=
  match j with
  | Json.obj _ => do
    let t ← decodeOptString j "type"
    let ts ← decodeOptString j "timestamp"
    let u ← decodeOptString j "uuid"
    let cwd ← decodeOptString j "cwd"
    let gb ← decodeOptString j "gitBranch"
    let v ← decodeOptString j "version"
    let m ← match j.lookup "message" with
      | none => some (none : Option Json)
      | some Json.null => some (none : Option Json)
      | some (Json.obj fs) =>
        match (Json.obj fs).lookup "content" with
        | some c => some (some c)
        | none => none
      | some _ => none
    pure ⟨t, ts, u, cwd, gb, v, m⟩
  | _ => none

/-- Models `serde` deserialization of one `ContentItem` (an object whose
known fields are all optional). -/
def contentItemFromJson (j : Json) : Option ContentItemR :=
  match j with
  | Json.obj _ => do
    let t ← decodeOptString j "type"
    let tx ← decodeOptString j "text"
    let nm ← decodeOptString j "name"
    let id ← decodeOptString j "id"
    let inp : Option Json :=
      match j.lookup "input" with
      | none => none
      | some Json.null => none
      | some v => some v
    let tuid ← decodeOptString j "tool_use_id"
    let rc : Option Json :=
      match j.lookup "content" with
      | none => none
      | some Json.null => none
      | some v => some v
    pure ⟨t, tx, nm, id, inp, tuid, rc⟩
  | _ => none

def optionTraverse (f : α → Option β) : List α → Option (List β)
  | [] => some []
  | x :: xs => do
    let y ← f x
    let ys ← optionTraverse f xs
    pure (y :: ys)

/-- Models `serde_json::from_str::<Vec<ContentItem>>` on the raw `content`
value: must be an array whose every element deserializes. -/
def contentItemsFromJson (j : Json) : Option (List ContentItemR) :=
  match j with
  | Json.arr items => optionTraverse contentItemFromJson items
  | _ => none

/-- Models the local `TextPart` deserialization inside
`extract_text_from_raw_content`. -/
def textPartFromJson (j : Json) : Option (Option String × Option String) :=
  match j with
  | Json.obj _ => do
    let t ← decodeOptString j "type"
    let tx ← decodeOptString j "text"
    pure (t, tx)
  | _ => none

/-- Rust `u8::is_ascii_whitespace` (space, tab, newline, form feed,
carriage return); also stands for `str::trim`/`char::is_whitespace` on the
ASCII inputs modelled here. -/
def isAsciiWs (c : Char) : Bool :=
  c = ' ' ∨ c = '\t' ∨ c = '\n' ∨ c = '\x0c' ∨ c = '\r'

/-- Models `trim_bytes` in `pipeline/parser.rs` (and `str::trim` on the
modelled ASCII inputs). -/
def trimChars (cs : List Char) : List Char :=
  ((cs.dropWhile isAsciiWs).reverse.dropWhile isAsciiWs).reverse

/-- Models `text.trim().is_empty()`: every char is whitespace. -/
def trimEmpty (s : String) : Bool := s.data.all isAsciiWs

/-- Models `extract_text_from_raw_content`.  A raw JSON text starts with
`"` iff the value is a string and with `[` iff it is an array, so the
source's prefix tests become constructor tests; the final fallback returns
the raw JSON as a string, modelled by the canonical rendering. -/
def extract_text_from_raw_content (j : Json) : Option String :=
  match j with
  | Json.str s => some s
  | Json.arr parts =>
    match optionTraverse textPartFromJson parts with
    | some tps =>
      let texts := tps.filterMap (fun tp =>
        if tp.1 = some "text" then tp.2 else none)
      if texts = [] then none
      else some (String.intercalate "\n" texts)
    | none => some (renderJson j)
  | _ => some (renderJson j)

/-- Models `extract_user_content_from_items`. -/
def extract_user_content_from_items (items : List ContentItemR) :
    Option String :=
  let parts := items.filterMap (fun item =>
    match item.type? with
    | some "text" => item.text
    | some "tool_result" =>
      match item.result_content with
      | some raw => extract_text_from_raw_content raw
      | none => none
    | _ => none)
  if parts = [] then none else some (String.intercalate "\n" parts)

/-- Models `extract_tool_results_from_items`: one `tool` event per
`tool_result` item with non-empty extracted text; `idx` enumerates all
items; `first` tracks which emitted event carries `raw_line`. -/
def extract_tool_results_loop (items : List ContentItemR) (idx : Nat)
    (first : Bool) (session_id msg_uuid : String) (timestamp : Int)
    (line_offset : Nat) (raw_line : String) : List ParsedEvent :=
  match items with
  | [] => []
  | item :: rest =>
    if item.type? ≠ some "tool_result" then
      extract_tool_results_loop rest (idx + 1) first session_id msg_uuid
        timestamp line_offset raw_line
    else
      let tool_use_id := item.tool_use_id.getD ""
      let uuid_suffix := if tool_use_id = "" then toString idx else tool_use_id
      let result_text := item.result_content.bind extract_text_from_raw_content
      match result_text with
      | some text =>
        if text = "" then
          extract_tool_results_loop rest (idx + 1) first session_id msg_uuid
            timestamp line_offset raw_line
        else
          ⟨msg_uuid ++ "-result-" ++ uuid_suffix, session_id, timestamp,
            Role.tool, none, none, none, some text, line_offset,
            "tool_result", if first then some raw_line else none⟩ ::
          extract_tool_results_loop rest (idx + 1) false session_id msg_uuid
            timestamp line_offset raw_line
      | none =>
        extract_tool_results_loop rest (idx + 1) first session_id msg_uuid
          timestamp line_offset raw_line

def extract_tool_results_from_items (items : List ContentItemR)
    (session_id msg_uuid : String) (timestamp : Int) (line_offset : Nat)
    (raw_line : String) : List ParsedEvent :=
  extract_tool_results_loop items 0 true session_id msg_uuid timestamp
    line_offset raw_line

/-- Models `extract_user_events`: try the array-of-items shape first, then
plain string content. -/
def extract_user_events (content : Json) (session_id msg_uuid : String)
    (timestamp : Int) (line_offset : Nat) (raw_line : String) :
    List ParsedEvent :=
  match contentItemsFromJson content with
  | some items =>
    if items.any (fun item => item.type? = some "tool_result") then
      extract_tool_results_from_items items session_id msg_uuid timestamp
        line_offset raw_line
    else
      match extract_user_content_from_items items with
      | some text =>
        if trimEmpty text then []
        else
          [⟨msg_uuid, session_id, timestamp, Role.user, some text, none,
            none, none, line_offset, "user", some raw_line⟩]
      | none => []
  | none =>
    match content with
    | Json.str text =>
      if trimEmpty text then []
      else
        [⟨msg_uuid, session_id, timestamp, Role.user, some text, none, none,
          none, line_offset, "user", some raw_line⟩]
    | _ => []

/-- Models the item loop of `extract_assistant_events`.  For `tool_use`
items the input is kept only when its raw text starts with `{`, i.e. iff
the value is a JSON object. -/
def extract_assistant_loop (items : List ContentItemR) (idx : Nat)
    (first : Bool) (session_id msg_uuid : String) (timestamp : Int)
    (line_offset : Nat) (raw_line : String) : List ParsedEvent :=
  match items with
  | [] => []
  | item :: rest =>
    let item_type := item.type?.getD ""
    if item_type = "text" then
      let text := item.text.getD ""
      if trimEmpty text then
        extract_assistant_loop rest (idx + 1) first session_id msg_uuid
          timestamp line_offset raw_line
      else
        ⟨msg_uuid ++ "-text-" ++ toString idx, session_id, timestamp,
          Role.assistant, some text, none, none, none, line_offset,
          "assistant", if first then some raw_line else none⟩ ::
        extract_assistant_loop rest (idx + 1) false session_id msg_uuid
          timestamp line_offset raw_line
    else if item_type = "tool_use" then
      let tool_name := item.name.getD ""
      let tool_id := item.id.getD ""
      let uuid_suffix := if tool_id = "" then toString idx else tool_id
      let tool_input := item.input.bind (fun raw =>
        match raw with
        | Json.obj fs => some (Json.obj fs)
        | _ => none)
      ⟨msg_uuid ++ "-tool-" ++ uuid_suffix, session_id, timestamp,
        Role.assistant, none, some tool_name, tool_input, none, line_offset,
        "assistant", if first then some raw_line else none⟩ ::
      extract_assistant_loop rest (idx + 1) false session_id msg_uuid
        timestamp line_offset raw_line
    else
      extract_assistant_loop rest (idx + 1) first session_id msg_uuid
        timestamp line_offset raw_line

/-- Models `extract_assistant_events`. -/
def extract_assistant_events (content : Json) (session_id msg_uuid : String)
    (timestamp : Int) (line_offset : Nat) (raw_line : String) :
    List ParsedEvent :=
  match contentItemsFromJson content with
  | some items =>
    extract_assistant_loop items 0 true session_id msg_uuid timestamp
      line_offset raw_line
  | none => []

/-- Models `extract_events`: skip metadata-only types, resolve the
timestamp (fallback `now`) and the message uuid (fallback: one draw from
the uuid stream), then dispatch on the type.  Returns the events of this
line and the advanced uuid counter. -/
def extract_events (obj : RawLineR) (session_id : String) (line_offset : Nat)
    (raw_line : String) (now : Int) (gen : Nat → String) (ctr : Nat) :
    List ParsedEvent × Nat :=
  let event_type := obj.type?.getD ""
  if event_type = "summary" ∨ event_type = "file-history-snapshot" ∨
      event_type = "progress" then
    ([], ctr)
  else
    let timestamp := (obj.timestamp.bind parse_timestamp).getD now
    let u0 := obj.uuid.getD ""
    let uc : String × Nat := if u0 = "" then (gen ctr, ctr + 1) else (u0, ctr)
    let msg_uuid := uc.1
    let ctr' := uc.2
    match obj.message with
    | none => ([], ctr')
    | some content =>
      if event_type = "user" then
        (extract_user_events content session_id msg_uuid timestamp
          line_offset raw_line, ctr')
      else if event_type = "assistant" then
        (extract_assistant_events content session_id msg_uuid timestamp
          line_offset raw_line, ctr')
      else ([], ctr')

/-- Accumulator for `collect_metadata` (the mutable locals of the parse
loops: first-wins metadata fields plus the running min/max timestamp). -/
structure MetaAcc where
  cwd : Option String
  git_branch : Option String
  version : Option String
  minTs : Option Int
  maxTs : Option Int
  deriving Repr, DecidableEq

def MetaAcc.init : MetaAcc := ⟨none, none, none, none, none⟩

/-- Models `collect_metadata`. -/
def collect_metadata (obj : RawLineR) (acc : MetaAcc) : MetaAcc :=
  let acc := if acc.cwd = none then { acc with cwd := obj.cwd } else acc
  let acc :=
    if acc.git_branch = none then { acc with git_branch := obj.gitBranch }
    else acc
  let acc := if acc.version = none then { acc with version := obj.version }
    else acc
  match obj.timestamp.bind parse_timestamp with
  | none => acc
  | some ts =>
    let acc :=
      match acc.minTs with
      | some existing => if ts < existing then { acc with minTs := some ts }
        else acc
      | none => { acc with minTs := some ts }
    match acc.maxTs with
    | some existing => if existing < ts then { acc with maxTs := some ts }
      else acc
    | none => { acc with maxTs := some ts }

/-- Split off the content before the first `\n` and the remainder after it;
`none` when the data contains no newline. -/
def splitFirstLine : List Char → Option (List Char × List Char)
  | [] => none
  | c :: cs =>
    if c = '\n' then some ([], cs)
    else
      match splitFirstLine cs with
      | none => none
      | some (line, rest) => some (c :: line, rest)

/-- Accumulator threaded through both parse loops: events so far, metadata
so far, uuid-stream counter. -/
structure LineAcc where
  events : List ParsedEvent
  meta : MetaAcc
  ctr : Nat

def LineAcc.init : LineAcc := ⟨[], MetaAcc.init, 0⟩

/-- Erase the timestamp of an event (the only field whose value can come
from the ambient clock). -/
def eraseTs (e : ParsedEvent) : ParsedEvent := { e with timestamp := 0 }

/-- Erase timestamps across a loop accumulator. -/
def eraseAcc (st : LineAcc) : LineAcc := ⟨st.events.map eraseTs, st.meta, st.ctr⟩

/-- Erase timestamps across a parse result (the claim compares two runs
modulo timestamp fallbacks). -/
def eraseRes (r : ParseResult) : ParseResult :=
  ⟨r.events.map eraseTs, r.last_good_offset, r.metadata⟩

/-- The raw-line uniqueness shape, per source offset: among the events with
a given `source_offset`, either there are none, or the first carries the
(non-empty) line text in `raw_line` and every other one omits it. -/
def PerOffsetRaw (evs : List ParsedEvent) : Prop :=
  ∀ o, evs.filter (fun e => e.source_offset = o) = [] ∨
    ∃ raw e rest, raw ≠ "" ∧
      evs.filter (fun e => e.source_offset = o) = e :: rest ∧
      e.raw_line = some raw ∧ ∀ x ∈ rest, x.raw_line = none

/-- The per-line body shared verbatim by `parse_mmap` and `parse_buffered`:
skip blank lines, skip (rate-limited log) lines that fail `RawLine`
deserialization, otherwise collect metadata and extract events. -/
def line_step (line : List Char) (line_offset : Nat) (session_id : String)
    (now : Int) (gen : Nat → String) (st : LineAcc) : LineAcc :=
  let trimmed := trimChars line
  if trimmed = [] then st
  else
    match (parseJson (String.mk trimmed)).bind rawLineFromJson with
    | none => st
    | some obj =>
      let meta' := collect_metadata obj st.meta
      let ec := extract_events obj session_id line_offset (String.mk trimmed)
        now gen st.ctr
      ⟨st.events ++ ec.1, meta', ec.2⟩

/-- Models the scan loop of `parse_mmap`: a trailing run with no newline is
left unprocessed and does not advance `last_good_offset`; every complete
line (blank, malformed or good) advances it to just past its newline. -/
def parse_mmap_loop (fuel : Nat) (data : List Char) (pos : Nat)
    (session_id : String) (now : Int) (gen : Nat → String) (st : LineAcc)
    (last_good : Nat) : LineAcc × Nat :=
  match fuel with
  | 0 => (st, last_good)
  | fuel' + 1 =>
    match splitFirstLine data with
    | none => (st, last_good)
    | some (line, rest) =>
      let after_line := pos + line.length + 1
      let st' := line_step line pos session_id now gen st
      parse_mmap_loop fuel' rest after_line session_id now gen st' after_line

/-- Strip one trailing carriage return, as `BufRead::lines` does on lines
that ended in `\r\n`. -/
def stripCR (line : List Char) : List Char :=
  if line.getLast? = some '\r' then line.dropLast else line

/-- Models the read loop of `parse_buffered`.  `BufRead::lines` also yields
a final line with no terminating newline, so a trailing partial line is
processed here, and `current_offset` (the eventual `last_good_offset`)
advances by `line.len() + 1` for every yielded line including that one. -/
def parse_buffered_loop (fuel : Nat) (data : List Char)
    (current_offset : Nat) (session_id : String) (now : Int)
    (gen : Nat → String) (st : LineAcc) : LineAcc × Nat :=
  match fuel with
  | 0 => (st, current_offset)
  | fuel' + 1 =>
    match splitFirstLine data with
    | some (rawline, rest) =>
      let line := stripCR rawline
      let st' := line_step line current_offset session_id now gen st
      parse_buffered_loop fuel' rest (current_offset + line.length + 1)
        session_id now gen st'
    | none =>
      match data with
      | [] => (st, current_offset)
      | _ =>
        let st' := line_step data current_offset session_id now gen st
        (st', current_offset + data.length + 1)

/-- Split a char list on `/` separators. -/
def splitSlash (cs : List Char) : List (List Char) :=
  match cs with
  | [] => [[]]
  | c :: rest =>
    match splitSlash rest with
    | [] => if c = '/' then [[], [c]] else [[c]]
    | h :: t => if c = '/' then [] :: h :: t else (c :: h) :: t

/-- Approximation of `Path::file_name` on the modelled (absolute,
`/`-separated) path strings: the last non-empty component, `none` for a
bare root or a `..` tail. -/
def pathFileName (s : String) : Option String :=
  let comps := (splitSlash s.data).filter (fun c => c ≠ [])
  match comps.getLast? with
  | some last =>
    if last = ['.', '.'] then none else some (String.mk last)
  | none => none

/-- The metadata finalization shared by both parse paths:
`started_at`/`ended_at` from the observed min/max timestamps, `project`
from the final component of `cwd`. -/
def finalize_result (session_id : String) (st : LineAcc) (last_good : Nat) :
    ParseResult :=
  ⟨st.events, last_good,
    ⟨session_id, st.meta.cwd, st.meta.git_branch,
      st.meta.cwd.bind pathFileName, st.meta.version, st.meta.minTs,
      st.meta.maxTs⟩⟩

/-- Models `parse_mmap` (the file is mapped whole; the scan starts at
`offset`, or returns immediately when `offset` is at or past EOF). -/
def parse_mmap (content : List Char) (offset : Nat) (session_id : String)
    (now : Int) (gen : Nat → String) : ParseResult :=
  if offset < content.length then
    let data := content.drop offset
    let r := parse_mmap_loop (data.length + 1) data offset session_id now gen
      LineAcc.init offset
    finalize_result session_id r.1 r.2
  else
    ⟨[], offset, SessionMetadata.init session_id⟩

/-- Models `parse_buffered` (seek to `offset`, then read lines to EOF). -/
def parse_buffered (content : List Char) (offset : Nat) (session_id : String)
    (now : Int) (gen : Nat → String) : ParseResult :=
  let data := content.drop offset
  let r := parse_buffered_loop (data.length + 1) data offset session_id now
    gen LineAcc.init
  finalize_result session_id r.1 r.2

/-- Models `parse_session_file` on the file's contents; `stem` is the
path's `file_stem` (computed by the caller model).  Strategy selection is
by total file size against `MMAP_THRESHOLD`. -/
def parse_session_file (content : List Char) (stem : String) (offset : Nat)
    (now : Int) (gen : Nat → String) : ParseResult :=
  let file_size := content.length
  let bytes_to_read := file_size - offset
  if bytes_to_read = 0 then ⟨[], offset, SessionMetadata.init stem⟩
  else if MMAP_THRESHOLD < file_size then parse_mmap content offset stem now gen
  else parse_buffered content offset stem now gen

/-- Models `Path::file_stem().and_then(to_str).unwrap_or("unknown")` used
by `parse_session_file` to derive the default session id. -/
def lastDotSplit (cs : List Char) : List Char :=
  let pref := cs.reverse.dropWhile (fun c => c ≠ '.')
  match pref with
  | [] => cs
  | _ :: rest => if rest = [] then cs else rest.reverse

def fileStem (path : String) : String :=
  match pathFileName path with
  | none => "unknown"
  | some name => String.mk (lastDotSplit name.data)

/-! ## Transport: `shipping/client.rs`

One HTTP exchange is an `HttpAttempt`: either the send failed before any
response arrived (reqwest `Err`), or a response with some status and body
arrived.  `ship`'s 429 retry loop consumes successive attempts from a list;
sleeping, jitter and the `Retry-After` header only affect timing, not the
classification, and are not modelled. -/

inductive HttpAttempt
  | sendError (msg : String)
  | responded (status : Nat) (body : String)
  deriving Repr

/-- True iff an HTTP response (of any status) arrived. -/
def HttpAttempt.isResponse : HttpAttempt → Bool
  | .sendError _ => false
  | .responded _ _ => true

inductive ShipResult
  | ok (body : Json)
  | rateLimited
  | serverError (code : Nat) (body : String)
  | clientError (code : Nat) (body : String)
  | connectError (msg : String)
  deriving Repr

/-- Models the loop of `ShipperClient::ship`.  Status arms in source
order: 2xx, 429 (retry until `max_retries_429`), 401/403, other 4xx, 5xx,
catch-all.  An exhausted attempt list stands for a request that never
completes and is reported as a connect error. -/
def ship (maxRetries429 : Nat) (attempts : List HttpAttempt) (retries : Nat) :
    ShipResult :=
  match attempts with
  | [] => ShipResult.connectError "no response"
  | HttpAttempt.sendError e :: _ => ShipResult.connectError e
  | HttpAttempt.responded status body :: rest =>
    if 200 ≤ status ∧ status ≤ 299 then
      ShipResult.ok ((parseJson body).getD Json.null)
    else if status = 429 then
      if maxRetries429 ≤ retries then ShipResult.rateLimited
      else ship maxRetries429 rest (retries + 1)
    else if status = 401 ∨ status = 403 then
      ShipResult.clientError status body
    else if 400 ≤ status ∧ status ≤ 499 then
      ShipResult.clientError status body
    else if 500 ≤ status ∧ status ≤ 599 then
      ShipResult.serverError status body
    else ShipResult.clientError status body

/-- Models `ShipperClient::post_json`: the returned `Result` is `Err` only
when `send()` itself fails (transport-level failure); any HTTP response —
whatever its status — yields `Ok(())`, since the response is discarded
without a status check. -/
def post_json : HttpAttempt → Except String Unit
  | HttpAttempt.sendError e => Except.error e
  | HttpAttempt.responded _ _ => Except.ok ()

/-! ## Delivery logic: `shipper.rs` -/

/-- Models `ShipItem` (the compressed payload is carried to the transport
only, whose outcome the model receives as a `ShipResult`, so it is not
reproduced here). -/
structure ShipItem where
  path_str : String
  provider : String
  offset : Nat
  new_offset : Nat
  event_count : Nat
  session_id : String
  deriving Repr, DecidableEq

/-- The durable state: `file_state` plus `spool_queue`. -/
structure SysState where
  db : FileDB
  spool : Spool

/-- Models `prepare_file`.  `fs` gives the current bytes of each existing
path (`none`: the `stat` fails and the function returns `None` with no
state change).  Returns the updated `file_state` (changed only by the
truncation `reset_offsets`) and the optional item. -/
def prepare_file (fs : String → Option (List Char)) (path provider : String)
    (db : FileDB) (now : Int) (gen : Nat → String) (dbnow : Nat) :
    FileDB × Option ShipItem :=
  let current_offset := db.get_offset path
  match fs path with
  | none => (db, none)
  | some content =>
    let file_size := content.length
    if file_size < current_offset then
      let db' := db.reset_offsets path dbnow
      let pr := parse_session_file content (fileStem path) 0 now gen
      if pr.events.isEmpty then (db', none)
      else
        (db', some ⟨path, provider, 0, file_size, pr.events.length,
          pr.metadata.session_id⟩)
    else if file_size = current_offset then (db, none)
    else
      let pr := parse_session_file content (fileStem path) current_offset now
        gen
      if pr.events.isEmpty then (db, none)
      else
        (db, some ⟨path, provider, current_offset, file_size,
          pr.events.length, pr.metadata.session_id⟩)

/-- Models `ship_and_record`, with the transport outcome supplied as
`result`.  Returns the new state, `events_shipped` and `is_connect_error`.
The consecutive-error tracker only rate-limits logging and is not
modelled. -/
def ship_and_record (item : ShipItem) (result : ShipResult) (st : SysState)
    (dbnow : Nat) : SysState × Nat × Bool :=
  match result with
  | ShipResult.ok _ =>
    (⟨st.db.set_offset item.path_str item.new_offset item.session_id
        item.session_id item.provider dbnow, st.spool⟩,
      item.event_count, false)
  | ShipResult.rateLimited | ShipResult.serverError _ _
  | ShipResult.connectError _ =>
    let eq := st.spool.enqueue item.provider item.path_str item.offset
      item.new_offset (some item.session_id) dbnow
    let db' :=
      if eq.1 then
        st.db.set_queued_offset item.path_str item.new_offset item.provider
          item.session_id item.session_id dbnow
      else st.db
    let is_connect_error :=
      match result with
      | ShipResult.connectError _ => true
      | _ => false
    (⟨db', eq.2⟩, 0, is_connect_error)
  | ShipResult.clientError _ _ =>
    (⟨st.db.set_offset item.path_str item.new_offset item.session_id
        item.session_id item.provider dbnow, st.spool⟩, 0, false)

/-- Models `run_startup_recovery`: re-enqueue the `[acked, queued)` gap of
every unacked file.  (`TrackedFile.session_id` is nullable in SQL but the
modelled writers always store a string.) -/
def run_startup_recovery (st : SysState) (dbnow : Nat) : SysState × Nat :=
  let unacked := st.db.get_unacked_files
  (⟨st.db,
    unacked.foldl (fun sp kv =>
      (sp.enqueue kv.2.provider kv.1 kv.2.acked_offset kv.2.queued_offset
        (some kv.2.session_id) dbnow).2) st.spool⟩,
    unacked.length)

/-- The external environment of a `replay_spool_batch` run: the filesystem,
the parser clock and uuid stream, the SQL clock, and the `cleanup` cutoff
(`now - 7 days`). -/
structure ReplayEnv where
  fs : String → Option (List Char)
  now : Int
  gen : Nat → String
  dbnow : Nat
  cutoff : Nat

/-- Models the entry loop of `replay_spool_batch`.  `responses` are the
successive outcomes of `client.ship`, consumed one per entry that reaches
the transport; `connectError` breaks out leaving the entry untouched.
With the filesystem given as a total map, `parse_session_file` cannot fail,
so the parse-error `mark_failed` arm has no model counterpart. -/
def replay_loop (entries : List SpoolEntry) (responses : List ShipResult)
    (st : SysState) (env : ReplayEnv) (shipped failed : Nat) :
    SysState × Nat × Nat :=
  match entries with
  | [] => (st, shipped, failed)
  | entry :: rest =>
    match env.fs entry.file_path with
    | none =>
      replay_loop rest responses
        ⟨st.db, st.spool.mark_failed_with_max entry.id "file missing" 0
          env.dbnow⟩ env shipped (failed + 1)
    | some content =>
      if (parse_session_file content (fileStem entry.file_path)
          entry.start_offset env.now env.gen).events.isEmpty then
        replay_loop rest responses
          ⟨st.db.set_acked_offset entry.file_path entry.end_offset env.dbnow,
            st.spool.mark_shipped entry.id⟩ env (shipped + 1) failed
      else
        match responses with
        | [] => (st, shipped, failed)
        | res :: responses' =>
          match res with
          | ShipResult.ok _ =>
            replay_loop rest responses'
              ⟨st.db.set_acked_offset entry.file_path entry.end_offset
                  env.dbnow,
                st.spool.mark_shipped entry.id⟩ env (shipped + 1) failed
          | ShipResult.connectError _ => (st, shipped, failed)
          | ShipResult.rateLimited =>
            replay_loop rest responses'
              ⟨st.db, st.spool.mark_failed entry.id
                "server error during replay" env.dbnow⟩ env shipped
              (failed + 1)
          | ShipResult.serverError _ _ =>
            replay_loop rest responses'
              ⟨st.db, st.spool.mark_failed entry.id
                "server error during replay" env.dbnow⟩ env shipped
              (failed + 1)
          | ShipResult.clientError code _ =>
            replay_loop rest responses'
              ⟨st.db, st.spool.mark_failed_with_max entry.id
                ("client error " ++ toString code) 0 env.dbnow⟩ env shipped
              (failed + 1)

/-- Models `replay_spool_batch`: dequeue a batch, run the loop, then
`cleanup()`. -/
def replay_spool_batch (st : SysState) (responses : List ShipResult)
    (env : ReplayEnv) (limit : Nat) : SysState × Nat × Nat :=
  let pending := st.spool.dequeue_batch limit env.dbnow
  let r := replay_loop pending responses st env 0 0
  (⟨r.1.db, r.1.spool.cleanup env.cutoff⟩, r.2.1, r.2.2)

/-! ## Presence outbox: `outbox.rs`

The claims concern the POST phase of `drain_outbox`: after coalescing, each
survivor file is POSTed to `/api/agents/presence` via `post_json`; the file
is deleted on `Ok` (counted in `sent`) and kept for the next tick on `Err`
(counted in `kept`). -/

structure OutboxFile where
  name : String
  bytes : String
  deriving Repr, DecidableEq

/-- Models the final loop of `drain_outbox`, one HTTP attempt per coalesced
survivor.  Returns `(sent, kept, files kept on disk)`. -/
def drainPostPhase : List (OutboxFile × HttpAttempt) →
    Nat × Nat × List OutboxFile
  | [] => (0, 0, [])
  | (f, att) :: rest =>
    let r := drainPostPhase rest
    match post_json att with
    | Except.ok _ => (r.1 + 1, r.2.1, r.2.2)
    | Except.error _ => (r.1, r.2.1 + 1, f :: r.2.2)

/-! ## Operation sequences

The public state-store and delivery operations, packaged as a step relation
for the claims that quantify over arbitrary operation sequences. -/

inductive SysOp
  | setOffset (p : String) (off : Nat) (sid psid prov : String) (dbnow : Nat)
  | setQueued (p : String) (off : Nat) (prov sid psid : String) (dbnow : Nat)
  | setAcked (p : String) (off : Nat) (dbnow : Nat)
  | reset (p : String) (dbnow : Nat)
  | shipRecord (item : ShipItem) (result : ShipResult) (dbnow : Nat)
  | replay (responses : List ShipResult) (env : ReplayEnv) (limit : Nat)

def SysOp.isReset : SysOp → Bool
  | .reset _ _ => true
  | _ => false

def stepOp (st : SysState) : SysOp → SysState
  | .setOffset p off sid psid prov dbnow =>
    ⟨st.db.set_offset p off sid psid prov dbnow, st.spool⟩
  | .setQueued p off prov sid psid dbnow =>
    ⟨st.db.set_queued_offset p off prov sid psid dbnow, st.spool⟩
  | .setAcked p off dbnow => ⟨st.db.set_acked_offset p off dbnow, st.spool⟩
  | .reset p dbnow => ⟨st.db.reset_offsets p dbnow, st.spool⟩
  | .shipRecord item result dbnow => (ship_and_record item result st dbnow).1
  | .replay responses env limit =>
    (replay_spool_batch st responses env limit).1

def runOps (st : SysState) : List SysOp → SysState
  | [] => st
  | op :: ops => runOps (stepOp st op) ops

/-- The spool mutators, for the boundedness claim. -/
inductive SpoolOp
  | enq (provider file_path : String) (s e : Nat) (sid : Option String)
      (now : Nat)
  | shipMark (id : Nat)
  | failMark (id : Nat) (err : String) (now : Nat)
  | failMarkMax (id : Nat) (err : String) (mx : Nat) (now : Nat)
  | clean (cutoff : Nat)

def stepSpoolOp (s : Spool) : SpoolOp → Spool
  | .enq prov path a b sid now => (s.enqueue prov path a b sid now).2
  | .shipMark id => s.mark_shipped id
  | .failMark id err now => s.mark_failed id err now
  | .failMarkMax id err mx now => s.mark_failed_with_max id err mx now
  | .clean cutoff => s.cleanup cutoff

def runSpoolOps (s : Spool) : List SpoolOp → Spool
  | [] => s
  | op :: ops => runSpoolOps (stepSpoolOp s op) ops

/-! ## Concrete fixtures

Small session-file contents used to evaluate the model at specific inputs
(`\x7b`/`\x7d` are `{`/`}`). -/

/-- One complete `user` record with NO terminating newline — a partial line
in the spec's sense. -/
def c2line : String :=
  "\x7b\"type\":\"user\",\"uuid\":\"u1\",\"message\":\x7b\"content\":\"hi\"\x7d\x7d"

/-- One `user` record with no `uuid` field (newline-terminated): its event
uuid comes from the random-uuid stream. -/
def c5content : List Char :=
  ("\x7b\"type\":\"user\",\"message\":\x7b\"content\":\"hi\"\x7d\x7d\n").data

/-- One complete, newline-terminated `user` record. -/
def c7content : List Char :=
  ("\x7b\"type\":\"user\",\"uuid\":\"u1\",\"message\":\x7b\"content\":\"hi\"\x7d\x7d\n").data

/-- One `assistant` record with two text items: one source line producing
two events. -/
def c6content : List Char :=
  ("\x7b\"type\":\"assistant\",\"uuid\":\"a1\",\"message\":\x7b\"content\":[\x7b\"type\":\"text\",\"text\":\"one\"\x7d,\x7b\"type\":\"text\",\"text\":\"two\"\x7d]\x7d\x7d\n").data

/-! ## State-store lemma library -/

namespace FileDB

lemma lookup_setRow_self (db : FileDB) (p : String) (r : FileRow) :
    (db.setRow p r).lookup p = (db.lookup p).map (fun _ => r) := by
  induction db with
  | nil => rfl
  | cons kv rest ih =>
    by_cases h : kv.1 = p
    · simp [setRow, lookup, h]
    · simp [setRow, lookup, h, ih]

lemma lookup_setRow_ne (db : FileDB) (p : String) (r : FileRow) (q : String)
    (h : q ≠ p) : (db.setRow p r).lookup q = db.lookup q := by
  induction db with
  | nil => rfl
  | cons kv rest ih =>
    by_cases hk : kv.1 = p
    · have : ¬(p = q) := fun hc => h hc.symm
      simp [setRow, lookup, hk, this]
    · by_cases hq : kv.1 = q
      · simp [setRow, lookup, hk, hq, h]
      · simp [setRow, lookup, hk, hq, ih]

lemma mem_setRow (db : FileDB) (p : String) (r : FileRow) :
    ∀ kv ∈ db.setRow p r, kv = (p, r) ∨ kv ∈ db := by
  induction db with
  | nil => intro kv h; cases h
  | cons hd rest ih =>
    intro kv h
    by_cases hk : hd.1 = p
    · simp only [setRow, if_pos hk] at h
      rcases List.mem_cons.mp h with h1 | h1
      · exact Or.inl h1
      · exact Or.inr (List.mem_cons_of_mem _ h1)
    · simp only [setRow, if_neg hk] at h
      rcases List.mem_cons.mp h with h1 | h1
      · exact Or.inr (h1 ▸ List.mem_cons_self _ _)
      · rcases ih kv h1 with h2 | h2
        · exact Or.inl h2
        · exact Or.inr (List.mem_cons_of_mem _ h2)

lemma lookup_mem (db : FileDB) (p : String) (r : FileRow)
    (h : db.lookup p = some r) : (p, r) ∈ db := by
  induction db with
  | nil => cases h
  | cons hd rest ih =>
    by_cases hk : hd.1 = p
    · simp only [lookup, if_pos hk] at h
      injection h with h2
      have : hd = (p, r) := Prod.ext hk h2
      exact this ▸ List.mem_cons_self _ _
    · simp only [lookup, if_neg hk] at h
      exact List.mem_cons_of_mem _ (ih h)

/-- Characterization of `set_offset` at the lookup level. -/
lemma lookup_set_offset (db : FileDB) (p : String) (off : Nat)
    (sid psid prov : String) (n : Nat) (q : String) :
    (db.set_offset p off sid psid prov n).lookup q =
      if q = p then
        some (match db.lookup p with
          | none => ⟨prov, off, off, sid, psid, n⟩
          | some r =>
            { r with queued_offset := max r.queued_offset off
                     acked_offset := max r.acked_offset off
                     session_id := sid, provider_session_id := psid
                     last_updated := n })
      else db.lookup q := by
  unfold set_offset
  cases hdb : db.lookup p with
  | none =>
    by_cases hq : q = p
    · subst hq; simp [lookup, hdb]
    · have : ¬(p = q) := fun hc => hq hc.symm
      simp [lookup, this, hq]
  | some r =>
    by_cases hq : q = p
    · subst hq; simp [lookup_setRow_self, hdb]
    · simp [lookup_setRow_ne _ _ _ _ hq, hq]

/-- Characterization of `set_queued_offset` at the lookup level. -/
lemma lookup_set_queued_offset (db : FileDB) (p : String) (off : Nat)
    (prov sid psid : String) (n : Nat) (q : String) :
    (db.set_queued_offset p off prov sid psid n).lookup q =
      if q = p then
        some (match db.lookup p with
          | none => ⟨prov, off, 0, sid, psid, n⟩
          | some r =>
            { r with queued_offset := max r.queued_offset off
                     session_id := sid, provider_session_id := psid
                     last_updated := n })
      else db.lookup q := by
  unfold set_queued_offset
  cases hdb : db.lookup p with
  | none =>
    by_cases hq : q = p
    · subst hq; simp [lookup, hdb]
    · have : ¬(p = q) := fun hc => hq hc.symm
      simp [lookup, this, hq]
  | some r =>
    by_cases hq : q = p
    · subst hq; simp [lookup_setRow_self, hdb]
    · simp [lookup_setRow_ne _ _ _ _ hq, hq]

/-- Characterization of `set_acked_offset` at the lookup level. -/
lemma lookup_set_acked_offset (db : FileDB) (p : String) (off : Nat)
    (n : Nat) (q : String) :
    (db.set_acked_offset p off n).lookup q =
      if q = p then
        (match db.lookup p with
          | none => none
          | some r =>
            some { r with acked_offset := max r.acked_offset off
                          last_updated := n })
      else db.lookup q := by
  unfold set_acked_offset
  cases hdb : db.lookup p with
  | none =>
    by_cases hq : q = p
    · subst hq; simp [hdb]
    · simp [hq]
  | some r =>
    by_cases hq : q = p
    · subst hq; simp [lookup_setRow_self, hdb]
    · simp [lookup_setRow_ne _ _ _ _ hq, hq]

/-- Characterization of `reset_offsets` at the lookup level. -/
lemma lookup_reset_offsets (db : FileDB) (p : String) (n : Nat) (q : String) :
    (db.reset_offsets p n).lookup q =
      if q = p then
        (match db.lookup p with
          | none => none
          | some r =>
            some { r with queued_offset := 0, acked_offset := 0
                          last_updated := n })
      else db.lookup q := by
  unfold reset_offsets
  cases hdb : db.lookup p with
  | none =>
    by_cases hq : q = p
    · subst hq; simp [hdb]
    · simp [hq]
  | some r =>
    by_cases hq : q = p
    · subst hq; simp [lookup_setRow_self, hdb]
    · simp [lookup_setRow_ne _ _ _ _ hq, hq]

lemma get_offset_set_offset (db : FileDB) (p : String) (off : Nat)
    (sid psid prov : String) (n : Nat) (q : String) :
    (db.set_offset p off sid psid prov n).get_offset q =
      if q = p then max (db.get_offset p) off else db.get_offset q := by
  unfold get_offset
  rw [lookup_set_offset]
  by_cases hq : q = p
  · subst hq
    cases hdb : db.lookup q with
    | none => simp [hdb]
    | some r => simp [hdb]
  · simp [hq]

lemma get_queued_set_offset (db : FileDB) (p : String) (off : Nat)
    (sid psid prov : String) (n : Nat) (q : String) :
    (db.set_offset p off sid psid prov n).get_queued_offset q =
      if q = p then max (db.get_queued_offset p) off
      else db.get_queued_offset q := by
  unfold get_queued_offset
  rw [lookup_set_offset]
  by_cases hq : q = p
  · subst hq
    cases hdb : db.lookup q with
    | none => simp [hdb]
    | some r => simp [hdb]
  · simp [hq]

lemma get_offset_set_queued (db : FileDB) (p : String) (off : Nat)
    (prov sid psid : String) (n : Nat) (q : String) :
    (db.set_queued_offset p off prov sid psid n).get_offset q =
      db.get_offset q := by
  unfold get_offset
  rw [lookup_set_queued_offset]
  by_cases hq : q = p
  · subst hq
    cases hdb : db.lookup q with
    | none => simp [hdb]
    | some r => simp [hdb]
  · simp [hq]

lemma get_queued_set_queued (db : FileDB) (p : String) (off : Nat)
    (prov sid psid : String) (n : Nat) (q : String) :
    (db.set_queued_offset p off prov sid psid n).get_queued_offset q =
      if q = p then max (db.get_queued_offset p) off
      else db.get_queued_offset q := by
  unfold get_queued_offset
  rw [lookup_set_queued_offset]
  by_cases hq : q = p
  · subst hq
    cases hdb : db.lookup q with
    | none => simp [hdb]
    | some r => simp [hdb]
  · simp [hq]

lemma get_offset_set_acked (db : FileDB) (p : String) (off : Nat) (n : Nat)
    (q : String) :
    (db.set_acked_offset p off n).get_offset q =
      if q = p then
        (match db.lookup p with
          | none => 0
          | some r => max r.acked_offset off)
      else db.get_offset q := by
  unfold get_offset
  rw [lookup_set_acked_offset]
  by_cases hq : q = p
  · subst hq
    cases hdb : db.lookup q with
    | none => simp [hdb]
    | some r => simp [hdb]
  · simp [hq]

lemma get_queued_set_acked (db : FileDB) (p : String) (off : Nat) (n : Nat)
    (q : String) :
    (db.set_acked_offset p off n).get_queued_offset q =
      db.get_queued_offset q := by
  unfold get_queued_offset
  rw [lookup_set_acked_offset]
  by_cases hq : q = p
  · subst hq
    cases hdb : db.lookup q with
    | none => simp [hdb]
    | some r => simp [hdb]
  · simp [hq]

lemma get_offset_reset (db : FileDB) (p : String) (n : Nat) (q : String) :
    (db.reset_offsets p n).get_offset q =
      if q = p then 0 else db.get_offset q := by
  unfold get_offset
  rw [lookup_reset_offsets]
  by_cases hq : q = p
  · subst hq
    cases hdb : db.lookup q with
    | none => simp [hdb]
    | some r => simp [hdb]
  · simp [hq]

lemma get_queued_reset (db : FileDB) (p : String) (n : Nat) (q : String) :
    (db.reset_offsets p n).get_queued_offset q =
      if q = p then 0 else db.get_queued_offset q := by
  unfold get_queued_offset
  rw [lookup_reset_offsets]
  by_cases hq : q = p
  · subst hq
    cases hdb : db.lookup q with
    | none => simp [hdb]
    | some r => simp [hdb]
  · simp [hq]

/-! Monotonicity of the acked cursor under each non-reset operation. -/

lemma mono_set_offset (db : FileDB) (p : String) (off : Nat)
    (sid psid prov : String) (n : Nat) (q : String) :
    db.get_offset q ≤ (db.set_offset p off sid psid prov n).get_offset q := by
  rw [get_offset_set_offset]
  by_cases hq : q = p
  · subst hq; simp
  · simp [hq]

lemma mono_set_queued (db : FileDB) (p : String) (off : Nat)
    (prov sid psid : String) (n : Nat) (q : String) :
    db.get_offset q ≤
      (db.set_queued_offset p off prov sid psid n).get_offset q := by
  rw [get_offset_set_queued]

lemma mono_set_acked (db : FileDB) (p : String) (off : Nat) (n : Nat)
    (q : String) :
    db.get_offset q ≤ (db.set_acked_offset p off n).get_offset q := by
  rw [get_offset_set_acked]
  by_cases hq : q = p
  · subst hq
    cases hdb : db.lookup q with
    | none => simp [get_offset, hdb]
    | some r => simp [get_offset, hdb]
  · simp [hq]

end FileDB

lemma ship_and_record_acked_mono (item : ShipItem) (result : ShipResult)
    (st : SysState) (dbnow : Nat) (q : String) :
    st.db.get_offset q ≤
      (ship_and_record item result st dbnow).1.db.get_offset q := by
  unfold ship_and_record
  cases result with
  | ok body => exact FileDB.mono_set_offset ..
  | rateLimited =>
    simp only
    by_cases he :
        (st.spool.enqueue item.provider item.path_str item.offset
          item.new_offset (some item.session_id) dbnow).1
    · simp [he, FileDB.mono_set_queued]
    · simp [he]
  | serverError c b =>
    simp only
    by_cases he :
        (st.spool.enqueue item.provider item.path_str item.offset
          item.new_offset (some item.session_id) dbnow).1
    · simp [he, FileDB.mono_set_queued]
    · simp [he]
  | connectError m =>
    simp only
    by_cases he :
        (st.spool.enqueue item.provider item.path_str item.offset
          item.new_offset (some item.session_id) dbnow).1
    · simp [he, FileDB.mono_set_queued]
    · simp [he]
  | clientError c b => exact FileDB.mono_set_offset ..

lemma replay_loop_acked_mono (entries : List SpoolEntry)
    (responses : List ShipResult) (st : SysState) (env : ReplayEnv)
    (shipped failed : Nat) (q : String) :
    st.db.get_offset q ≤
      (replay_loop entries responses st env shipped failed).1.db.get_offset
        q := by
  induction entries generalizing responses st shipped failed with
  | nil => exact Nat.le_refl _
  | cons entry rest ih =>
    cases hfs : env.fs entry.file_path with
    | none =>
      simp only [replay_loop, hfs]
      exact ih responses
        ⟨st.db, st.spool.mark_failed_with_max entry.id "file missing" 0
          env.dbnow⟩ shipped (failed + 1)
    | some content =>
      by_cases hev :
          (parse_session_file content (fileStem entry.file_path)
            entry.start_offset env.now env.gen).events.isEmpty
      · simp only [replay_loop, hfs, hev, if_true]
        exact Nat.le_trans
          (FileDB.mono_set_acked st.db entry.file_path entry.end_offset
            env.dbnow q)
          (ih responses
            ⟨st.db.set_acked_offset entry.file_path entry.end_offset
              env.dbnow, st.spool.mark_shipped entry.id⟩ (shipped + 1) failed)
      · simp only [replay_loop, hfs, hev, Bool.false_eq_true, if_false]
        cases responses with
        | nil => exact Nat.le_refl _
        | cons res responses' =>
          cases res with
          | ok body =>
            exact Nat.le_trans
              (FileDB.mono_set_acked st.db entry.file_path entry.end_offset
                env.dbnow q)
              (ih responses'
                ⟨st.db.set_acked_offset entry.file_path entry.end_offset
                    env.dbnow,
                  st.spool.mark_shipped entry.id⟩ (shipped + 1) failed)
          | connectError m => exact Nat.le_refl _
          | rateLimited =>
            exact ih responses'
              ⟨st.db, st.spool.mark_failed entry.id
                "server error during replay" env.dbnow⟩ shipped (failed + 1)
          | serverError c b =>
            exact ih responses'
              ⟨st.db, st.spool.mark_failed entry.id
                "server error during replay" env.dbnow⟩ shipped (failed + 1)
          | clientError c b =>
            exact ih responses'
              ⟨st.db, st.spool.mark_failed_with_max entry.id
                ("client error " ++ toString c) 0 env.dbnow⟩ shipped
              (failed + 1)

lemma replay_spool_batch_acked_mono (st : SysState)
    (responses : List ShipResult) (env : ReplayEnv) (limit : Nat)
    (q : String) :
    st.db.get_offset q ≤
      (replay_spool_batch st responses env limit).1.db.get_offset q := by
  unfold replay_spool_batch
  exact replay_loop_acked_mono ..

lemma stepOp_acked_mono (st : SysState) (op : SysOp) (q : String)
    (h : op.isReset = false) :
    st.db.get_offset q ≤ (stepOp st op).db.get_offset q := by
  cases op with
  | setOffset p off sid psid prov n => exact FileDB.mono_set_offset ..
  | setQueued p off prov sid psid n => exact FileDB.mono_set_queued ..
  | setAcked p off n => exact FileDB.mono_set_acked ..
  | reset p n => simp [SysOp.isReset] at h
  | shipRecord item res n => exact ship_and_record_acked_mono ..
  | replay resp env lim => exact replay_spool_batch_acked_mono ..

/-! ## Cursor-invariant lemma library (claim C1) -/

namespace FileDB

lemma inv_set_offset (db : FileDB) (p : String) (off : Nat)
    (sid psid prov : String) (n : Nat) (h : db.CursorInv) :
    (db.set_offset p off sid psid prov n).CursorInv := by
  intro kv hkv
  unfold set_offset at hkv
  cases hdb : db.lookup p with
  | none =>
    rw [hdb] at hkv
    rcases List.mem_cons.mp hkv with h1 | h1
    · subst h1; exact Nat.le_refl _
    · exact h kv h1
  | some r =>
    rw [hdb] at hkv
    rcases mem_setRow _ _ _ kv hkv with h1 | h1
    · subst h1
      have hr := h (p, r) (lookup_mem _ _ _ hdb)
      simp only at hr ⊢
      omega
    · exact h kv h1

lemma inv_set_queued (db : FileDB) (p : String) (off : Nat)
    (prov sid psid : String) (n : Nat) (h : db.CursorInv) :
    (db.set_queued_offset p off prov sid psid n).CursorInv := by
  intro kv hkv
  unfold set_queued_offset at hkv
  cases hdb : db.lookup p with
  | none =>
    rw [hdb] at hkv
    rcases List.mem_cons.mp hkv with h1 | h1
    · subst h1; exact Nat.zero_le _
    · exact h kv h1
  | some r =>
    rw [hdb] at hkv
    rcases mem_setRow _ _ _ kv hkv with h1 | h1
    · subst h1
      have hr := h (p, r) (lookup_mem _ _ _ hdb)
      simp only at hr ⊢
      omega
    · exact h kv h1

lemma inv_set_acked (db : FileDB) (p : String) (off : Nat) (n : Nat)
    (h : db.CursorInv) (hoff : off ≤ db.get_queued_offset p) :
    (db.set_acked_offset p off n).CursorInv := by
  intro kv hkv
  unfold set_acked_offset at hkv
  cases hdb : db.lookup p with
  | none => rw [hdb] at hkv; exact h kv hkv
  | some r =>
    rw [hdb] at hkv
    rcases mem_setRow _ _ _ kv hkv with h1 | h1
    · subst h1
      have hr := h (p, r) (lookup_mem _ _ _ hdb)
      have hq : db.get_queued_offset p = r.queued_offset := by
        simp [get_queued_offset, hdb]
      rw [hq] at hoff
      simp only at hr ⊢
      omega
    · exact h kv h1

lemma inv_reset (db : FileDB) (p : String) (n : Nat) (h : db.CursorInv) :
    (db.reset_offsets p n).CursorInv := by
  intro kv hkv
  unfold reset_offsets at hkv
  cases hdb : db.lookup p with
  | none => rw [hdb] at hkv; exact h kv hkv
  | some r =>
    rw [hdb] at hkv
    rcases mem_setRow _ _ _ kv hkv with h1 | h1
    · subst h1; exact Nat.le_refl _
    · exact h kv h1

end FileDB

lemma inv_ship_and_record (item : ShipItem) (result : ShipResult)
    (st : SysState) (dbnow : Nat) (h : st.db.CursorInv) :
    (ship_and_record item result st dbnow).1.db.CursorInv := by
  unfold ship_and_record
  cases result with
  | ok body => exact FileDB.inv_set_offset _ _ _ _ _ _ _ h
  | clientError c b => exact FileDB.inv_set_offset _ _ _ _ _ _ _ h
  | rateLimited =>
    simp only
    by_cases he :
        (st.spool.enqueue item.provider item.path_str item.offset
          item.new_offset (some item.session_id) dbnow).1
    · simp only [he, if_true]
      exact FileDB.inv_set_queued _ _ _ _ _ _ _ h
    · simp only [he, Bool.false_eq_true, if_false]; exact h
  | serverError c b =>
    simp only
    by_cases he :
        (st.spool.enqueue item.provider item.path_str item.offset
          item.new_offset (some item.session_id) dbnow).1
    · simp only [he, if_true]
      exact FileDB.inv_set_queued _ _ _ _ _ _ _ h
    · simp only [he, Bool.false_eq_true, if_false]; exact h
  | connectError m =>
    simp only
    by_cases he :
        (st.spool.enqueue item.provider item.path_str item.offset
          item.new_offset (some item.session_id) dbnow).1
    · simp only [he, if_true]
      exact FileDB.inv_set_queued _ _ _ _ _ _ _ h
    · simp only [he, Bool.false_eq_true, if_false]; exact h

lemma inv_replay_loop (entries : List SpoolEntry)
    (responses : List ShipResult) (st : SysState) (env : ReplayEnv)
    (shipped failed : Nat) (h : st.db.CursorInv)
    (hend : ∀ e ∈ entries,
      e.end_offset ≤ st.db.get_queued_offset e.file_path) :
    (replay_loop entries responses st env shipped failed).1.db.CursorInv := by
  induction entries generalizing responses st shipped failed with
  | nil => exact h
  | cons entry rest ih =>
    have hde := hend entry (List.mem_cons_self ..)
    have hrest : ∀ e ∈ rest,
        e.end_offset ≤ st.db.get_queued_offset e.file_path :=
      fun e he => hend e (List.mem_cons_of_mem _ he)
    have hrest' : ∀ e ∈ rest,
        e.end_offset ≤
          (st.db.set_acked_offset entry.file_path entry.end_offset
            env.dbnow).get_queued_offset e.file_path := by
      intro e he
      rw [FileDB.get_queued_set_acked]
      exact hrest e he
    cases hfs : env.fs entry.file_path with
    | none =>
      simp only [replay_loop, hfs]
      exact ih responses
        ⟨st.db, st.spool.mark_failed_with_max entry.id "file missing" 0
          env.dbnow⟩ shipped (failed + 1) h hrest
    | some content =>
      by_cases hev :
          (parse_session_file content (fileStem entry.file_path)
            entry.start_offset env.now env.gen).events.isEmpty
      · simp only [replay_loop, hfs, hev, if_true]
        exact ih responses
          ⟨st.db.set_acked_offset entry.file_path entry.end_offset env.dbnow,
            st.spool.mark_shipped entry.id⟩ (shipped + 1) failed
          (FileDB.inv_set_acked _ _ _ _ h hde) hrest'
      · simp only [replay_loop, hfs, hev, Bool.false_eq_true, if_false]
        cases responses with
        | nil => exact h
        | cons res responses' =>
          cases res with
          | ok body =>
            exact ih responses'
              ⟨st.db.set_acked_offset entry.file_path entry.end_offset
                  env.dbnow, st.spool.mark_shipped entry.id⟩ (shipped + 1)
              failed (FileDB.inv_set_acked _ _ _ _ h hde) hrest'
          | connectError m => exact h
          | rateLimited =>
            exact ih responses'
              ⟨st.db, st.spool.mark_failed entry.id
                "server error during replay" env.dbnow⟩ shipped (failed + 1)
              h hrest
          | serverError c b =>
            exact ih responses'
              ⟨st.db, st.spool.mark_failed entry.id
                "server error during replay" env.dbnow⟩ shipped (failed + 1)
              h hrest
          | clientError c b =>
            exact ih responses'
              ⟨st.db, st.spool.mark_failed_with_max entry.id
                ("client error " ++ toString c) 0 env.dbnow⟩ shipped
              (failed + 1) h hrest

namespace Spool

lemma mem_insertByCreated (l : List SpoolEntry) (x e : SpoolEntry)
    (h : x ∈ insertByCreated e l) : x = e ∨ x ∈ l := by
  induction l with
  | nil => simpa [insertByCreated] using h
  | cons hd tl ih =>
    unfold insertByCreated at h
    by_cases hc : hd.created_at ≤ e.created_at
    · rw [if_pos hc] at h
      rcases List.mem_cons.mp h with h1 | h1
      · exact Or.inr (h1 ▸ List.mem_cons_self _ _)
      · rcases ih h1 with h2 | h2
        · exact Or.inl h2
        · exact Or.inr (List.mem_cons_of_mem _ h2)
    · rw [if_neg hc] at h
      rcases List.mem_cons.mp h with h1 | h1
      · exact Or.inl h1
      · exact Or.inr h1

lemma mem_sortByCreated (l : List SpoolEntry) (x : SpoolEntry)
    (h : x ∈ sortByCreated l) : x ∈ l := by
  induction l with
  | nil => simp [sortByCreated] at h
  | cons hd tl ih =>
    unfold sortByCreated at h
    rcases mem_insertByCreated _ _ _ h with h1 | h1
    · exact h1 ▸ List.mem_cons_self _ _
    · exact List.mem_cons_of_mem _ (ih h1)

lemma mem_dequeue_batch (s : Spool) (limit now : Nat) (e : SpoolEntry)
    (h : e ∈ s.dequeue_batch limit now) : e ∈ s.entries := by
  unfold dequeue_batch at h
  have h1 := List.mem_of_mem_take h
  have h2 := mem_sortByCreated _ _ h1
  exact List.mem_of_mem_filter h2

end Spool

lemma inv_replay_spool_batch (st : SysState) (responses : List ShipResult)
    (env : ReplayEnv) (limit : Nat) (h : st.db.CursorInv)
    (hend : ∀ e ∈ st.spool.entries,
      e.end_offset ≤ st.db.get_queued_offset e.file_path) :
    (replay_spool_batch st responses env limit).1.db.CursorInv := by
  unfold replay_spool_batch
  exact inv_replay_loop _ _ _ _ _ _ h
    (fun e he => hend e (Spool.mem_dequeue_batch _ _ _ _ he))

/-! ## Spool-size lemma (claim C8) -/

lemma stepSpoolOp_size (s : Spool) (op : SpoolOp)
    (h : s.total_size ≤ MAX_QUEUE_SIZE) :
    (stepSpoolOp s op).total_size ≤ MAX_QUEUE_SIZE := by
  cases op with
  | enq prov path a b sid now =>
    unfold stepSpoolOp Spool.enqueue
    by_cases hc : MAX_QUEUE_SIZE ≤ s.total_size
    · simpa [hc] using h
    · simp only [hc, if_false]
      simp only [Spool.total_size, List.length_append, List.length_cons,
        List.length_nil] at h ⊢
      unfold Spool.total_size at hc
      omega
  | shipMark id =>
    simp only [stepSpoolOp, Spool.mark_shipped, Spool.total_size]
    exact Nat.le_trans (List.length_filter_le _ _) h
  | failMark id err now =>
    simp only [stepSpoolOp, Spool.mark_failed, Spool.mark_failed_with_max,
      Spool.total_size, List.length_map]
    exact h
  | failMarkMax id err mx now =>
    simp only [stepSpoolOp, Spool.mark_failed_with_max, Spool.total_size,
      List.length_map]
    exact h
  | clean cutoff =>
    simp only [stepSpoolOp, Spool.cleanup, Spool.total_size]
    exact Nat.le_trans
      (Nat.le_trans (List.length_filter_le _ _) (List.length_filter_le _ _)) h

/-! ## Claim theorems -/

/-- C1, counterexample: the dual-cursor invariant `acked ≤ queued` is not
preserved through the claimed operation set.  A transient ship failure
spools `[0, 100)` and queues to 100; truncation recovery `reset_offsets`
zeroes both cursors but leaves the spool entry; replaying that (now empty)
range acks 100 while `queued_offset` is 0. -/
theorem c1_counterexample_reset_then_replay :
    ¬ (runOps ⟨[], Spool.empty⟩
        [SysOp.shipRecord ⟨"/f", "claude", 0, 100, 1, "s"⟩
            (ShipResult.serverError 500 "") 10,
          SysOp.reset "/f" 11,
          SysOp.replay [] ⟨fun _ => some [], 0, fun _ => "g", 12, 0⟩
            10]).db.CursorInv := by
  decide

/-- C1 (amended): for every tracked file `0 ≤ acked_offset ≤ queued_offset`
is preserved by `set_offset`, `set_queued_offset`, `reset_offsets` and
`ship_and_record` unconditionally, and by `set_acked_offset` (and by
`replay_spool_batch`, which acks spool entries) provided the acked offset
written — a spool entry's `end_offset` — does not exceed the file's current
`queued_offset`; after a `reset_offsets` that leaves stale spool entries
behind, replay can violate it. -/
theorem c1_cursor_invariant_amended (db : FileDB) (h : db.CursorInv) :
    (∀ p off sid psid prov n,
      (db.set_offset p off sid psid prov n).CursorInv) ∧
    (∀ p off prov sid psid n,
      (db.set_queued_offset p off prov sid psid n).CursorInv) ∧
    (∀ p n, (db.reset_offsets p n).CursorInv) ∧
    (∀ p off n, off ≤ db.get_queued_offset p →
      (db.set_acked_offset p off n).CursorInv) ∧
    (∀ item result spool dbnow,
      (ship_and_record item result ⟨db, spool⟩ dbnow).1.db.CursorInv) ∧
    (∀ (spool : Spool) responses env limit,
      (∀ e ∈ spool.entries,
        e.end_offset ≤ db.get_queued_offset e.file_path) →
      (replay_spool_batch ⟨db, spool⟩ responses env limit).1.db.CursorInv) :=
  ⟨fun p off sid psid prov n => FileDB.inv_set_offset db p off sid psid prov n h,
    fun p off prov sid psid n => FileDB.inv_set_queued db p off prov sid psid n h,
    fun p n => FileDB.inv_reset db p n h,
    fun p off n hoff => FileDB.inv_set_acked db p off n h hoff,
    fun item result spool dbnow => inv_ship_and_record item result ⟨db, spool⟩ dbnow h,
    fun spool responses env limit hend =>
      inv_replay_spool_batch ⟨db, spool⟩ responses env limit h hend⟩

/-- Witness for C1 (amended) at a concrete store. -/
theorem c1_cursor_invariant_amended_witness :
    FileDB.CursorInv [("/f", ⟨"claude", 10, 5, "s", "s", 0⟩)] ∧
    7 ≤ FileDB.get_queued_offset [("/f", ⟨"claude", 10, 5, "s", "s", 0⟩)]
        "/f" ∧
    FileDB.CursorInv
      (FileDB.set_acked_offset [("/f", ⟨"claude", 10, 5, "s", "s", 0⟩)]
        "/f" 7 1) :=
  ⟨by decide, by decide,
    (c1_cursor_invariant_amended [("/f", ⟨"claude", 10, 5, "s", "s", 0⟩)]
      (by decide)).2.2.2.1 "/f" 7 1 (by decide)⟩

/-- C4: for any path, the acked cursor never decreases over any sequence of
the public operations (`set_offset`, `set_queued_offset`,
`set_acked_offset`, `ship_and_record`, `replay_spool_batch`) that contains
no `reset_offsets` — each cursor write is a SQL `MAX`. -/
theorem c4_acked_never_decreases_without_reset (ops : List SysOp)
    (st : SysState) (p : String) :
    (∀ op ∈ ops, op.isReset = false) →
    st.db.get_offset p ≤ (runOps st ops).db.get_offset p := by
  induction ops generalizing st with
  | nil => intro _; exact Nat.le_refl _
  | cons op rest ih =>
    intro h
    exact Nat.le_trans
      (stepOp_acked_mono st op p (h op (List.mem_cons_self ..)))
      (ih (stepOp st op) (fun o ho => h o (List.mem_cons_of_mem _ ho)))

/-- Witness for C4 at a concrete operation sequence. -/
theorem c4_acked_never_decreases_witness :
    (∀ op ∈ ([SysOp.setQueued "/f" 100 "claude" "s" "s" 1,
        SysOp.setAcked "/f" 60 2,
        SysOp.setOffset "/f" 40 "s" "s" "claude" 3] : List SysOp),
      op.isReset = false) ∧
    FileDB.get_offset [("/f", ⟨"claude", 50, 50, "s", "s", 0⟩)] "/f" ≤
      (runOps ⟨[("/f", ⟨"claude", 50, 50, "s", "s", 0⟩)], Spool.empty⟩
        [SysOp.setQueued "/f" 100 "claude" "s" "s" 1,
          SysOp.setAcked "/f" 60 2,
          SysOp.setOffset "/f" 40 "s" "s" "claude" 3]).db.get_offset "/f" :=
  ⟨by decide,
    c4_acked_never_decreases_without_reset _
      ⟨[("/f", ⟨"claude", 50, 50, "s", "s", 0⟩)], Spool.empty⟩ "/f"
      (by decide)⟩

/-- C3: on `RateLimited`, `ServerError` or `ConnectError`,
`ship_and_record` enqueues the byte range `[offset, new_offset)` and, only
when the enqueue succeeded (spool below capacity), advances
`queued_offset` by `MAX` — in particular to exactly `new_offset` whenever
the cursor was at or below it — leaving `acked_offset` unchanged; when the
spool is full, both the store and the spool are left untouched. -/
theorem c3_transient_failure_spools_or_backpressure (st : SysState)
    (item : ShipItem) (result : ShipResult) (dbnow : Nat)
    (hres : result = ShipResult.rateLimited ∨
      (∃ c b, result = ShipResult.serverError c b) ∨
      (∃ m, result = ShipResult.connectError m)) :
    if st.spool.total_size < MAX_QUEUE_SIZE then
      (ship_and_record item result st dbnow).1.spool.entries =
        st.spool.entries ++
          [⟨st.spool.nextId, item.provider, item.path_str, item.offset,
            item.new_offset, some item.session_id, dbnow, 0, dbnow, none,
            SpoolStatus.pending⟩] ∧
      (ship_and_record item result st dbnow).1.db.get_queued_offset
          item.path_str =
        max (st.db.get_queued_offset item.path_str) item.new_offset ∧
      (ship_and_record item result st dbnow).1.db.get_offset item.path_str =
        st.db.get_offset item.path_str ∧
      (st.db.get_queued_offset item.path_str ≤ item.new_offset →
        (ship_and_record item result st dbnow).1.db.get_queued_offset
          item.path_str = item.new_offset)
    else
      (ship_and_record item result st dbnow).1.db = st.db ∧
      (ship_and_record item result st dbnow).1.spool = st.spool := by
  rcases hres with h | ⟨c, b, h⟩ | ⟨m, h⟩ <;> subst h <;>
  · by_cases hsz : st.spool.total_size < MAX_QUEUE_SIZE
    · rw [if_pos hsz]
      have henq : st.spool.enqueue item.provider item.path_str item.offset
          item.new_offset (some item.session_id) dbnow =
          (true, ⟨st.spool.entries ++
            [⟨st.spool.nextId, item.provider, item.path_str, item.offset,
              item.new_offset, some item.session_id, dbnow, 0, dbnow, none,
              SpoolStatus.pending⟩], st.spool.nextId + 1⟩) := by
        unfold Spool.enqueue
        rw [if_neg (by omega)]
      refine ⟨?_, ?_, ?_, ?_⟩
      · simp only [ship_and_record, henq]
      · simp only [ship_and_record, henq, if_true]
        rw [FileDB.get_queued_set_queued]
        simp
      · simp only [ship_and_record, henq, if_true]
        rw [FileDB.get_offset_set_queued]
      · intro hle
        simp only [ship_and_record, henq, if_true]
        rw [FileDB.get_queued_set_queued]
        simp
        omega
    · rw [if_neg hsz]
      have henq : st.spool.enqueue item.provider item.path_str item.offset
          item.new_offset (some item.session_id) dbnow = (false, st.spool) := by
        unfold Spool.enqueue
        rw [if_pos (by omega)]
      constructor
      · simp only [ship_and_record, henq, Bool.false_eq_true, if_false]
      · simp only [ship_and_record, henq]

/-- Witness for C3 at a concrete transient failure. -/
theorem c3_transient_failure_witness :
    ((ShipResult.rateLimited = ShipResult.rateLimited ∨
      (∃ c b, ShipResult.rateLimited = ShipResult.serverError c b) ∨
      (∃ m, ShipResult.rateLimited = ShipResult.connectError m)) : Prop) ∧
    (if (Spool.empty : Spool).total_size < MAX_QUEUE_SIZE then
      (ship_and_record ⟨"/f", "claude", 0, 100, 1, "s"⟩
          ShipResult.rateLimited ⟨[], Spool.empty⟩ 5).1.spool.entries =
        Spool.empty.entries ++
          [⟨Spool.empty.nextId, "claude", "/f", 0, 100, some "s", 5, 0, 5,
            none, SpoolStatus.pending⟩] ∧
      (ship_and_record ⟨"/f", "claude", 0, 100, 1, "s"⟩
          ShipResult.rateLimited ⟨[], Spool.empty⟩ 5).1.db.get_queued_offset
          "/f" =
        max (FileDB.get_queued_offset [] "/f") 100 ∧
      (ship_and_record ⟨"/f", "claude", 0, 100, 1, "s"⟩
          ShipResult.rateLimited ⟨[], Spool.empty⟩ 5).1.db.get_offset "/f" =
        FileDB.get_offset [] "/f" ∧
      (FileDB.get_queued_offset [] "/f" ≤ 100 →
        (ship_and_record ⟨"/f", "claude", 0, 100, 1, "s"⟩
          ShipResult.rateLimited ⟨[], Spool.empty⟩
          5).1.db.get_queued_offset "/f" = 100)
    else
      (ship_and_record ⟨"/f", "claude", 0, 100, 1, "s"⟩
          ShipResult.rateLimited ⟨[], Spool.empty⟩ 5).1.db = [] ∧
      (ship_and_record ⟨"/f", "claude", 0, 100, 1, "s"⟩
          ShipResult.rateLimited ⟨[], Spool.empty⟩ 5).1.spool =
        Spool.empty) :=
  ⟨Or.inl rfl,
    c3_transient_failure_spools_or_backpressure ⟨[], Spool.empty⟩
      ⟨"/f", "claude", 0, 100, 1, "s"⟩ ShipResult.rateLimited 5
      (Or.inl rfl)⟩

/-- C8: `Spool::enqueue` returns `false` without inserting whenever the
total row count is at least `MAX_QUEUE_SIZE` (10 000), and consequently any
sequence of spool mutations that inserts only through `enqueue` keeps the
table at 10 000 rows or fewer. -/
theorem c8_spool_bounded (s : Spool) (provider path : String) (a b : Nat)
    (sid : Option String) (now : Nat) :
    (MAX_QUEUE_SIZE ≤ s.total_size →
      s.enqueue provider path a b sid now = (false, s)) ∧
    (∀ ops : List SpoolOp,
      (runSpoolOps Spool.empty ops).total_size ≤ MAX_QUEUE_SIZE) := by
  constructor
  · intro h
    unfold Spool.enqueue
    rw [if_pos h]
  · intro ops
    have key : ∀ s0 : Spool, s0.total_size ≤ MAX_QUEUE_SIZE →
        (runSpoolOps s0 ops).total_size ≤ MAX_QUEUE_SIZE := by
      induction ops with
      | nil => intro s0 h0; exact h0
      | cons op rest ih =>
        intro s0 h0
        exact ih _ (stepSpoolOp_size s0 op h0)
    exact key Spool.empty (by decide)

/-- Witness for C8 at a full spool. -/
theorem c8_spool_bounded_witness :
    MAX_QUEUE_SIZE ≤
      (⟨List.replicate 10000
          ⟨0, "claude", "/f", 0, 1, none, 0, 0, 0, none,
            SpoolStatus.pending⟩, 0⟩ : Spool).total_size ∧
    (⟨List.replicate 10000
        ⟨0, "claude", "/f", 0, 1, none, 0, 0, 0, none,
          SpoolStatus.pending⟩, 0⟩ : Spool).enqueue "claude" "/g" 3 9
        (some "s") 7 =
      (false,
        ⟨List.replicate 10000
          ⟨0, "claude", "/f", 0, 1, none, 0, 0, 0, none,
            SpoolStatus.pending⟩, 0⟩) ∧
    (∀ ops : List SpoolOp,
      (runSpoolOps Spool.empty ops).total_size ≤ MAX_QUEUE_SIZE) :=
  ⟨by simp only [Spool.total_size, List.length_replicate, MAX_QUEUE_SIZE]
      exact Nat.le_refl _,
    (c8_spool_bounded _ "claude" "/g" 3 9 (some "s") 7).1
      (by simp only [Spool.total_size, List.length_replicate, MAX_QUEUE_SIZE]
          exact Nat.le_refl _),
    (c8_spool_bounded Spool.empty "claude" "/g" 3 9 (some "s") 7).2⟩

/-- C9: a response status outside every range the source enumerates — the
1xx and 3xx ranges — falls to the catch-all arm of `ship` and is
classified `ClientError`; `ship_and_record` then advances both cursors to
(at least) `new_offset` via `set_offset` and leaves the spool untouched. -/
theorem c9_unhandled_status_is_client_error (status : Nat) (body : String)
    (rest : List HttpAttempt) (mr : Nat) (st : SysState) (item : ShipItem)
    (dbnow : Nat)
    (h : (100 ≤ status ∧ status ≤ 199) ∨ (300 ≤ status ∧ status ≤ 399)) :
    ship mr (HttpAttempt.responded status body :: rest) 0 =
      ShipResult.clientError status body ∧
    (ship_and_record item (ShipResult.clientError status body) st
        dbnow).1.spool = st.spool ∧
    (ship_and_record item (ShipResult.clientError status body) st
        dbnow).1.db.get_offset item.path_str =
      max (st.db.get_offset item.path_str) item.new_offset ∧
    (ship_and_record item (ShipResult.clientError status body) st
        dbnow).1.db.get_queued_offset item.path_str =
      max (st.db.get_queued_offset item.path_str) item.new_offset := by
  refine ⟨?_, rfl, ?_, ?_⟩
  · unfold ship
    have h1 : ¬(200 ≤ status ∧ status ≤ 299) := by omega
    have h2 : ¬status = 429 := by omega
    have h3 : ¬(status = 401 ∨ status = 403) := by omega
    have h4 : ¬(400 ≤ status ∧ status ≤ 499) := by omega
    have h5 : ¬(500 ≤ status ∧ status ≤ 599) := by omega
    simp [h1, h2, h3, h4, h5]
  · have hd : (ship_and_record item (ShipResult.clientError status body) st
        dbnow).1.db =
        st.db.set_offset item.path_str item.new_offset item.session_id
          item.session_id item.provider dbnow := rfl
    rw [hd, FileDB.get_offset_set_offset]
    simp
  · have hd : (ship_and_record item (ShipResult.clientError status body) st
        dbnow).1.db =
        st.db.set_offset item.path_str item.new_offset item.session_id
          item.session_id item.provider dbnow := rfl
    rw [hd, FileDB.get_queued_set_offset]
    simp

/-- Witness for C9 at a 302 redirect. -/
theorem c9_unhandled_status_witness :
    ((100 ≤ 302 ∧ 302 ≤ 199) ∨ (300 ≤ 302 ∧ 302 ≤ 399)) ∧
    ship 3 [HttpAttempt.responded 302 "moved"] 0 =
      ShipResult.clientError 302 "moved" ∧
    (ship_and_record ⟨"/f", "claude", 0, 100, 1, "s"⟩
        (ShipResult.clientError 302 "moved") ⟨[], Spool.empty⟩
        5).1.db.get_offset "/f" = max (FileDB.get_offset [] "/f") 100 :=
  ⟨by decide,
    (c9_unhandled_status_is_client_error 302 "moved" [] 3 ⟨[], Spool.empty⟩
      ⟨"/f", "claude", 0, 100, 1, "s"⟩ 5 (by decide)).1,
    (c9_unhandled_status_is_client_error 302 "moved" [] 3 ⟨[], Spool.empty⟩
      ⟨"/f", "claude", 0, 100, 1, "s"⟩ 5 (by decide)).2.2.1⟩

/-- C10: `post_json` succeeds on any HTTP response regardless of status and
fails only on transport-level failure; hence the drain loop deletes
(counts as `sent`) exactly the survivors whose POST got a response, and
keeps on disk exactly those whose POST got none. -/
theorem c10_drain_deletes_on_any_response
    (l : List (OutboxFile × HttpAttempt)) :
    (∀ s b, post_json (HttpAttempt.responded s b) = Except.ok ()) ∧
    (∀ m, post_json (HttpAttempt.sendError m) = Except.error m) ∧
    (drainPostPhase l).1 =
      (l.filter (fun fa => fa.2.isResponse)).length ∧
    (drainPostPhase l).2.1 =
      (l.filter (fun fa => !fa.2.isResponse)).length ∧
    (drainPostPhase l).2.2 =
      (l.filter (fun fa => !fa.2.isResponse)).map Prod.fst := by
  have key : (drainPostPhase l).1 =
      (l.filter (fun fa => fa.2.isResponse)).length ∧
      (drainPostPhase l).2.1 =
        (l.filter (fun fa => !fa.2.isResponse)).length ∧
      (drainPostPhase l).2.2 =
        (l.filter (fun fa => !fa.2.isResponse)).map Prod.fst := by
    induction l with
    | nil => exact ⟨rfl, rfl, rfl⟩
    | cons fa rest ih =>
      obtain ⟨f, att⟩ := fa
      cases att with
      | sendError m =>
        simp [drainPostPhase, post_json, HttpAttempt.isResponse, ih.1,
          ih.2.1, ih.2.2]
      | responded s b =>
        simp [drainPostPhase, post_json, HttpAttempt.isResponse, ih.1,
          ih.2.1, ih.2.2]
  exact ⟨fun s b => rfl, fun m => rfl, key.1, key.2.1, key.2.2⟩

/-- C2 (failing input): on a 54-byte file consisting of one valid record
with NO terminating newline, `parse_session_file` takes the buffered path
(file ≤ 1 MiB) and — because `BufRead::lines` yields the trailing partial
line like any other — emits an event from the partial line and sets
`last_good_offset` to 55, one past EOF, instead of excluding the partial
line and returning `last_good_offset = start_offset = 0`.  The mmap-path
model on the same bytes shows the documented semantics: no events,
`last_good_offset = 0`.  This contradicts the parser's own doc comment
("the last good byte offset (excluding partial lines)") and the intent of
its `test_partial_line_at_eof` test. -/
theorem c2_buffered_path_includes_partial_tail :
    c2line.length = 54 ∧
    (parse_session_file c2line.data "sess" 0 0
        (fun _ => "g")).events.length = 1 ∧
    (parse_session_file c2line.data "sess" 0 0
        (fun _ => "g")).last_good_offset = 55 ∧
    (parse_mmap c2line.data 0 "sess" 0 (fun _ => "g")).events.length = 0 ∧
    (parse_mmap c2line.data 0 "sess" 0 (fun _ => "g")).last_good_offset =
      0 := by
  decide

/-- C7 (amended): when the on-disk size has shrunk below the recorded
acked offset, `prepare_file` resets both cursors to zero via
`reset_offsets` and parses from byte 0; if that parse yields at least one
event it returns a `ShipItem` with `offset = 0` and `new_offset` equal to
the file size at stat time, and otherwise it returns `None` (with the
cursors still reset). -/
theorem c7_truncation_recovery_amended (fs : String → Option (List Char))
    (path provider : String) (db : FileDB) (now : Int) (gen : Nat → String)
    (dbnow : Nat) (content : List Char) (hfs : fs path = some content)
    (htr : content.length < db.get_offset path) :
    (prepare_file fs path provider db now gen dbnow).1 =
      db.reset_offsets path dbnow ∧
    (prepare_file fs path provider db now gen dbnow).1.get_offset path = 0 ∧
    (prepare_file fs path provider db now gen
      dbnow).1.get_queued_offset path = 0 ∧
    (∀ item,
      (prepare_file fs path provider db now gen dbnow).2 = some item →
      item.offset = 0 ∧ item.new_offset = content.length ∧
      item.event_count =
        (parse_session_file content (fileStem path) 0 now
          gen).events.length) ∧
    ((prepare_file fs path provider db now gen dbnow).2 = none →
      (parse_session_file content (fileStem path) 0 now
        gen).events.isEmpty) := by
  by_cases hev :
      (parse_session_file content (fileStem path) 0 now gen).events.isEmpty
  · have hp : prepare_file fs path provider db now gen dbnow =
        (db.reset_offsets path dbnow, none) := by
      unfold prepare_file
      rw [hfs]
      simp only [if_pos htr, hev, if_true]
    refine ⟨by rw [hp], ?_, ?_, ?_, fun _ => hev⟩
    · rw [hp, FileDB.get_offset_reset]; simp
    · rw [hp, FileDB.get_queued_reset]; simp
    · intro item hitem
      rw [hp] at hitem
      cases hitem
  · have hp : prepare_file fs path provider db now gen dbnow =
        (db.reset_offsets path dbnow,
          some ⟨path, provider, 0, content.length,
            (parse_session_file content (fileStem path) 0 now
              gen).events.length,
            (parse_session_file content (fileStem path) 0 now
              gen).metadata.session_id⟩) := by
      unfold prepare_file
      rw [hfs]
      simp only [if_pos htr, hev, Bool.false_eq_true, if_false]
    refine ⟨by rw [hp], ?_, ?_, ?_, ?_⟩
    · rw [hp, FileDB.get_offset_reset]; simp
    · rw [hp, FileDB.get_queued_reset]; simp
    · intro item hitem
      rw [hp] at hitem
      injection hitem with h1
      subst h1
      exact ⟨rfl, rfl, rfl⟩
    · intro hnone
      rw [hp] at hnone
      cases hnone

/-- Witness for C7 (amended) at a concrete truncated file: the recorded
acked offset is 500, the file now holds one 55-byte record, and
`prepare_file` resets the cursors and returns an item covering
`[0, 55)`. -/
theorem c7_truncation_recovery_witness :
    ((fun _ => some c7content) "/a/sess1.jsonl" = some c7content) ∧
    c7content.length <
      FileDB.get_offset [("/a/sess1.jsonl", ⟨"claude", 500, 500, "s", "s", 0⟩)]
        "/a/sess1.jsonl" ∧
    (prepare_file (fun _ => some c7content) "/a/sess1.jsonl" "claude"
        [("/a/sess1.jsonl", ⟨"claude", 500, 500, "s", "s", 0⟩)] 0
        (fun _ => "g") 7).2 =
      some ⟨"/a/sess1.jsonl", "claude", 0, c7content.length, 1, "sess1"⟩ ∧
    ((prepare_file (fun _ => some c7content) "/a/sess1.jsonl" "claude"
        [("/a/sess1.jsonl", ⟨"claude", 500, 500, "s", "s", 0⟩)] 0
        (fun _ => "g") 7).1.get_offset "/a/sess1.jsonl" = 0 ∧
      (prepare_file (fun _ => some c7content) "/a/sess1.jsonl" "claude"
        [("/a/sess1.jsonl", ⟨"claude", 500, 500, "s", "s", 0⟩)] 0
        (fun _ => "g") 7).1.get_queued_offset "/a/sess1.jsonl" = 0) :=
  ⟨rfl, by decide, by decide,
    (c7_truncation_recovery_amended (fun _ => some c7content)
      "/a/sess1.jsonl" "claude"
      [("/a/sess1.jsonl", ⟨"claude", 500, 500, "s", "s", 0⟩)] 0
      (fun _ => "g") 7 c7content rfl (by decide)).2.1,
    (c7_truncation_recovery_amended (fun _ => some c7content)
      "/a/sess1.jsonl" "claude"
      [("/a/sess1.jsonl", ⟨"claude", 500, 500, "s", "s", 0⟩)] 0
      (fun _ => "g") 7 c7content rfl (by decide)).2.2.1⟩

/-- C7, counterexample to the claim as stated: a file truncated to zero
bytes (size 0 < recorded acked 500) makes `prepare_file` reset the cursors
but return `None` — no `ShipItem` with `offset = 0` and
`new_offset = size` is produced, because the re-parse yields no events. -/
theorem c7_counterexample_empty_truncated_file :
    ([] : List Char).length <
      FileDB.get_offset [("/a/sess1.jsonl", ⟨"claude", 500, 500, "s", "s", 0⟩)]
        "/a/sess1.jsonl" ∧
    (prepare_file (fun _ => some []) "/a/sess1.jsonl" "claude"
        [("/a/sess1.jsonl", ⟨"claude", 500, 500, "s", "s", 0⟩)] 0
        (fun _ => "g") 7).2 = none := by
  decide

/-! ### Determinism lemmas (claim C5): the clock value flows only into
event timestamps. -/

lemma map_eraseTs_tool_results_loop (items : List ContentItemR) (idx : Nat)
    (first : Bool) (sid mu : String) (ts₁ ts₂ : Int) (off : Nat)
    (raw : String) :
    (extract_tool_results_loop items idx first sid mu ts₁ off raw).map
        eraseTs =
      (extract_tool_results_loop items idx first sid mu ts₂ off raw).map
        eraseTs := by
  induction items generalizing idx first with
  | nil => rfl
  | cons item rest ih =>
    simp only [extract_tool_results_loop]
    by_cases h1 : item.type? = some "tool_result"
    · have hc : ¬item.type? ≠ some "tool_result" := by simp [h1]
      simp only [if_neg hc]
      cases hrt : item.result_content.bind extract_text_from_raw_content with
      | none => simp only [hrt]; exact ih idx.succ first
      | some text =>
        by_cases ht : text = ""
        · simp only [hrt, if_pos ht]; exact ih idx.succ first
        · simp only [hrt, if_neg ht, List.map_cons]
          rw [ih idx.succ false]
          rfl
    · have hc : item.type? ≠ some "tool_result" := h1
      simp only [if_pos hc]
      exact ih idx.succ first

lemma map_eraseTs_assistant_loop (items : List ContentItemR) (idx : Nat)
    (first : Bool) (sid mu : String) (ts₁ ts₂ : Int) (off : Nat)
    (raw : String) :
    (extract_assistant_loop items idx first sid mu ts₁ off raw).map eraseTs =
      (extract_assistant_loop items idx first sid mu ts₂ off raw).map
        eraseTs := by
  induction items generalizing idx first with
  | nil => rfl
  | cons item rest ih =>
    simp only [extract_assistant_loop]
    by_cases h1 : item.type?.getD "" = "text"
    · simp only [if_pos h1]
      by_cases ht : trimEmpty (item.text.getD "") = true
      · simp only [if_pos ht]
        exact ih idx.succ first
      · simp only [if_neg ht, List.map_cons]
        rw [ih idx.succ false]
        rfl
    · simp only [if_neg h1]
      by_cases h2 : item.type?.getD "" = "tool_use"
      · simp only [if_pos h2, List.map_cons]
        rw [ih idx.succ false]
        rfl
      · simp only [if_neg h2]
        exact ih idx.succ first

lemma map_eraseTs_user_events (content : Json) (sid mu : String)
    (ts₁ ts₂ : Int) (off : Nat) (raw : String) :
    (extract_user_events content sid mu ts₁ off raw).map eraseTs =
      (extract_user_events content sid mu ts₂ off raw).map eraseTs := by
  unfold extract_user_events
  cases hct : contentItemsFromJson content with
  | some items =>
    by_cases hr : items.any (fun item => item.type? = some "tool_result")
    · simp only [hr, if_true]
      unfold extract_tool_results_from_items
      exact map_eraseTs_tool_results_loop ..
    · simp only [hr, Bool.false_eq_true, if_false]
      cases hx : extract_user_content_from_items items with
      | some text =>
        by_cases ht : trimEmpty text = true
        · simp only [if_pos ht]
        · simp only [if_neg ht, List.map_cons, List.map_nil]
          rfl
      | none => rfl
  | none =>
    cases content with
    | str text =>
      by_cases ht : trimEmpty text = true
      · simp only [if_pos ht]
      · simp only [if_neg ht, List.map_cons, List.map_nil]
        rfl
    | null => rfl
    | bool b => rfl
    | num s => rfl
    | arr l => rfl
    | obj l => rfl

lemma map_eraseTs_assistant_events (content : Json) (sid mu : String)
    (ts₁ ts₂ : Int) (off : Nat) (raw : String) :
    (extract_assistant_events content sid mu ts₁ off raw).map eraseTs =
      (extract_assistant_events content sid mu ts₂ off raw).map eraseTs := by
  unfold extract_assistant_events
  cases hct : contentItemsFromJson content with
  | some items => exact map_eraseTs_assistant_loop ..
  | none => rfl

lemma extract_events_ctr_indep (obj : RawLineR) (sid : String) (off : Nat)
    (raw : String) (gen : Nat → String) (ctr : Nat) (now₁ now₂ : Int) :
    (extract_events obj sid off raw now₁ gen ctr).2 =
      (extract_events obj sid off raw now₂ gen ctr).2 := by
  unfold extract_events
  by_cases hskip : obj.type?.getD "" = "summary" ∨
      obj.type?.getD "" = "file-history-snapshot" ∨
      obj.type?.getD "" = "progress"
  · simp only [if_pos hskip]
  · simp only [if_neg hskip]
    cases hm : obj.message with
    | none => rfl
    | some content =>
      by_cases hu : obj.type?.getD "" = "user"
      · simp only [if_pos hu]
      · simp only [if_neg hu]
        by_cases ha : obj.type?.getD "" = "assistant"
        · simp only [if_pos ha]
        · simp only [if_neg ha]

lemma extract_events_erase (obj : RawLineR) (sid : String) (off : Nat)
    (raw : String) (gen : Nat → String) (ctr : Nat) (now₁ now₂ : Int) :
    (extract_events obj sid off raw now₁ gen ctr).1.map eraseTs =
      (extract_events obj sid off raw now₂ gen ctr).1.map eraseTs := by
  unfold extract_events
  by_cases hskip : obj.type?.getD "" = "summary" ∨
      obj.type?.getD "" = "file-history-snapshot" ∨
      obj.type?.getD "" = "progress"
  · simp only [if_pos hskip]
  · simp only [if_neg hskip]
    cases hm : obj.message with
    | none => rfl
    | some content =>
      by_cases hu : obj.type?.getD "" = "user"
      · simp only [if_pos hu]
        exact map_eraseTs_user_events ..
      · simp only [if_neg hu]
        by_cases ha : obj.type?.getD "" = "assistant"
        · simp only [if_pos ha]
          exact map_eraseTs_assistant_events ..
        · simp only [if_neg ha]

lemma line_step_erase (line : List Char) (off : Nat) (sid : String)
    (gen : Nat → String) (now₁ now₂ : Int) (st₁ st₂ : LineAcc)
    (h : eraseAcc st₁ = eraseAcc st₂) :
    eraseAcc (line_step line off sid now₁ gen st₁) =
      eraseAcc (line_step line off sid now₂ gen st₂) := by
  have h' := h
  simp only [eraseAcc, LineAcc.mk.injEq] at h'
  obtain ⟨he, hme, hce⟩ := h'
  unfold line_step
  by_cases htr : trimChars line = []
  · simp only [if_pos htr]; exact h
  · simp only [if_neg htr]
    cases hobj : (parseJson (String.mk (trimChars line))).bind
        rawLineFromJson with
    | none => exact h
    | some obj =>
      unfold eraseAcc
      simp only [LineAcc.mk.injEq, List.map_append]
      refine ⟨?_, ?_, ?_⟩
      · rw [he, hce, extract_events_erase obj sid off (String.mk
          (trimChars line)) gen st₂.ctr now₁ now₂]
      · rw [hme]
      · rw [hce, extract_events_ctr_indep obj sid off (String.mk
          (trimChars line)) gen st₂.ctr now₁ now₂]

lemma parse_mmap_loop_erase (fuel : Nat) (data : List Char) (pos : Nat)
    (sid : String) (gen : Nat → String) (now₁ now₂ : Int)
    (st₁ st₂ : LineAcc) (lg : Nat) (h : eraseAcc st₁ = eraseAcc st₂) :
    eraseAcc (parse_mmap_loop fuel data pos sid now₁ gen st₁ lg).1 =
      eraseAcc (parse_mmap_loop fuel data pos sid now₂ gen st₂ lg).1 ∧
    (parse_mmap_loop fuel data pos sid now₁ gen st₁ lg).2 =
      (parse_mmap_loop fuel data pos sid now₂ gen st₂ lg).2 := by
  induction fuel generalizing data pos st₁ st₂ lg with
  | zero => exact ⟨h, rfl⟩
  | succ fuel ih =>
    cases hsp : splitFirstLine data with
    | none =>
      constructor
      · simp only [parse_mmap_loop, hsp]; exact h
      · simp only [parse_mmap_loop, hsp]
    | some lr =>
      obtain ⟨line, rest⟩ := lr
      constructor
      · simp only [parse_mmap_loop, hsp]
        exact (ih rest (pos + line.length + 1) _ _ _
          (line_step_erase line pos sid gen now₁ now₂ st₁ st₂ h)).1
      · simp only [parse_mmap_loop, hsp]
        exact (ih rest (pos + line.length + 1) _ _ _
          (line_step_erase line pos sid gen now₁ now₂ st₁ st₂ h)).2

lemma parse_buffered_loop_erase (fuel : Nat) (data : List Char)
    (pos : Nat) (sid : String) (gen : Nat → String) (now₁ now₂ : Int)
    (st₁ st₂ : LineAcc) (h : eraseAcc st₁ = eraseAcc st₂) :
    eraseAcc (parse_buffered_loop fuel data pos sid now₁ gen st₁).1 =
      eraseAcc (parse_buffered_loop fuel data pos sid now₂ gen st₂).1 ∧
    (parse_buffered_loop fuel data pos sid now₁ gen st₁).2 =
      (parse_buffered_loop fuel data pos sid now₂ gen st₂).2 := by
  induction fuel generalizing data pos st₁ st₂ with
  | zero => exact ⟨h, rfl⟩
  | succ fuel ih =>
    cases hsp : splitFirstLine data with
    | none =>
      cases data with
      | nil =>
        constructor
        · simp only [parse_buffered_loop, hsp]; exact h
        · simp only [parse_buffered_loop, hsp]
      | cons c cs =>
        constructor
        · simp only [parse_buffered_loop, hsp]
          exact line_step_erase (c :: cs) pos sid gen now₁ now₂ st₁ st₂ h
        · simp only [parse_buffered_loop, hsp]
    | some lr =>
      obtain ⟨rawline, rest⟩ := lr
      constructor
      · simp only [parse_buffered_loop, hsp]
        exact (ih rest (pos + (stripCR rawline).length + 1) _ _
          (line_step_erase (stripCR rawline) pos sid gen now₁ now₂ st₁ st₂
            h)).1
      · simp only [parse_buffered_loop, hsp]
        exact (ih rest (pos + (stripCR rawline).length + 1) _ _
          (line_step_erase (stripCR rawline) pos sid gen now₁ now₂ st₁ st₂
            h)).2

/-- C5 (amended): `parse_session_file` is a pure function of the file
bytes, the path stem, the start offset, the ambient clock and the random
uuid stream; with the uuid stream fixed, runs under different clock values
produce identical results — same `last_good_offset`, same metadata, and
events equal in every field except the timestamp (erased by `eraseRes`). -/
theorem c5_parse_deterministic_up_to_timestamps (content : List Char)
    (stem : String) (offset : Nat) (gen : Nat → String) (now₁ now₂ : Int) :
    eraseRes (parse_session_file content stem offset now₁ gen) =
      eraseRes (parse_session_file content stem offset now₂ gen) := by
  unfold parse_session_file
  by_cases h0 : content.length - offset = 0
  · rw [if_pos h0, if_pos h0]
  · rw [if_neg h0, if_neg h0]
    by_cases hth : MMAP_THRESHOLD < content.length
    · rw [if_pos hth, if_pos hth]
      unfold parse_mmap
      by_cases ho : offset < content.length
      · rw [if_pos ho, if_pos ho]
        have h12 := parse_mmap_loop_erase
          ((content.drop offset).length + 1) (content.drop offset) offset
          stem gen now₁ now₂ LineAcc.init LineAcc.init offset rfl
        obtain ⟨h1, h2⟩ := h12
        simp only [eraseAcc, LineAcc.mk.injEq] at h1
        obtain ⟨he, hm, _⟩ := h1
        unfold finalize_result eraseRes
        simp only [ParseResult.mk.injEq]
        exact ⟨he, h2, by rw [hm]⟩
      · rw [if_neg ho, if_neg ho]
    · rw [if_neg hth, if_neg hth]
      unfold parse_buffered
      have h12 := parse_buffered_loop_erase
        ((content.drop offset).length + 1) (content.drop offset) offset
        stem gen now₁ now₂ LineAcc.init LineAcc.init rfl
      obtain ⟨h1, h2⟩ := h12
      simp only [eraseAcc, LineAcc.mk.injEq] at h1
      obtain ⟨he, hm, _⟩ := h1
      unfold finalize_result eraseRes
      simp only [ParseResult.mk.injEq]
      exact ⟨he, h2, by rw [hm]⟩

/-- C5, counterexample to the claim as stated: on a record with no `uuid`
field, each run draws a fresh random uuid, so two runs on identical file
bytes (and identical clocks) differ in the event `uuid` field — a
non-timestamp field — refuting "identical ... with the sole exception of
timestamp fields". -/
theorem c5_counterexample_fresh_uuid_nondeterminism :
    (parse_session_file c5content "s" 0 0 (fun _ => "A")).events.map
        (fun e => e.uuid) = ["A"] ∧
    (parse_session_file c5content "s" 0 0 (fun _ => "B")).events.map
        (fun e => e.uuid) = ["B"] ∧
    ¬ ((parse_session_file c5content "s" 0 0 (fun _ => "A")).events.map
          eraseTs).map (fun e => e.uuid) =
        ((parse_session_file c5content "s" 0 0 (fun _ => "B")).events.map
          eraseTs).map (fun e => e.uuid) := by
  decide

/-! ### Raw-line uniqueness lemmas (claim C6) -/

lemma offs_tool_results_loop (items : List ContentItemR) (idx : Nat)
    (first : Bool) (sid mu : String) (ts : Int) (off : Nat) (raw : String) :
    ∀ e ∈ extract_tool_results_loop items idx first sid mu ts off raw,
      e.source_offset = off := by
  induction items generalizing idx first with
  | nil => intro e he; cases he
  | cons item rest ih =>
    intro e he
    simp only [extract_tool_results_loop] at he
    by_cases h1 : item.type? ≠ some "tool_result"
    · rw [if_pos h1] at he
      exact ih idx.succ first e he
    · rw [if_neg h1] at he
      cases hrt : item.result_content.bind extract_text_from_raw_content with
      | none =>
        simp only [hrt] at he
        exact ih idx.succ first e he
      | some text =>
        by_cases ht : text = ""
        · simp only [hrt, if_pos ht] at he
          exact ih idx.succ first e he
        · simp only [hrt, if_neg ht] at he
          rcases List.mem_cons.mp he with h | h
          · subst h; rfl
          · exact ih idx.succ false e h

lemma offs_assistant_loop (items : List ContentItemR) (idx : Nat)
    (first : Bool) (sid mu : String) (ts : Int) (off : Nat) (raw : String) :
    ∀ e ∈ extract_assistant_loop items idx first sid mu ts off raw,
      e.source_offset = off := by
  induction items generalizing idx first with
  | nil => intro e he; cases he
  | cons item rest ih =>
    intro e he
    simp only [extract_assistant_loop] at he
    by_cases h1 : item.type?.getD "" = "text"
    · rw [if_pos h1] at he
      by_cases ht : trimEmpty (item.text.getD "") = true
      · rw [if_pos ht] at he
        exact ih idx.succ first e he
      · rw [if_neg ht] at he
        rcases List.mem_cons.mp he with h | h
        · subst h; rfl
        · exact ih idx.succ false e h
    · rw [if_neg h1] at he
      by_cases h2 : item.type?.getD "" = "tool_use"
      · rw [if_pos h2] at he
        rcases List.mem_cons.mp he with h | h
        · subst h; rfl
        · exact ih idx.succ false e h
      · rw [if_neg h2] at he
        exact ih idx.succ first e he

lemma offs_user_events (content : Json) (sid mu : String) (ts : Int)
    (off : Nat) (raw : String) :
    ∀ e ∈ extract_user_events content sid mu ts off raw,
      e.source_offset = off := by
  intro e he
  unfold extract_user_events at he
  cases hct : contentItemsFromJson content with
  | some items =>
    by_cases hr : (items.any (fun item => item.type? = some "tool_result")) =
        true
    · simp only [hct, if_pos hr] at he
      exact offs_tool_results_loop items 0 true sid mu ts off raw e he
    · cases hx : extract_user_content_from_items items with
      | some text =>
        by_cases ht : trimEmpty text = true
        · simp only [hct, if_neg hr, hx, if_pos ht] at he; cases he
        · simp only [hct, if_neg hr, hx, if_neg ht] at he
          rcases List.mem_cons.mp he with h | h
          · subst h; rfl
          · cases h
      | none => simp only [hct, if_neg hr, hx] at he; cases he
  | none =>
    cases content with
    | str text =>
      by_cases ht : trimEmpty text = true
      · simp only [hct, if_pos ht] at he; cases he
      · simp only [hct, if_neg ht] at he
        rcases List.mem_cons.mp he with h | h
        · subst h; rfl
        · cases h
    | null => simp only [hct] at he; cases he
    | bool b => simp only [hct] at he; cases he
    | num s => simp only [hct] at he; cases he
    | arr l => simp only [hct] at he; cases he
    | obj l => simp only [hct] at he; cases he

lemma offs_assistant_events (content : Json) (sid mu : String) (ts : Int)
    (off : Nat) (raw : String) :
    ∀ e ∈ extract_assistant_events content sid mu ts off raw,
      e.source_offset = off := by
  intro e he
  unfold extract_assistant_events at he
  cases hct : contentItemsFromJson content with
  | some items =>
    simp only [hct] at he
    exact offs_assistant_loop items 0 true sid mu ts off raw e he
  | none => simp only [hct] at he; cases he

lemma offs_extract_events (obj : RawLineR) (sid : String) (off : Nat)
    (raw : String) (now : Int) (gen : Nat → String) (ctr : Nat) :
    ∀ e ∈ (extract_events obj sid off raw now gen ctr).1,
      e.source_offset = off := by
  intro e he
  unfold extract_events at he
  by_cases hskip : obj.type?.getD "" = "summary" ∨
      obj.type?.getD "" = "file-history-snapshot" ∨
      obj.type?.getD "" = "progress"
  · rw [if_pos hskip] at he; cases he
  · rw [if_neg hskip] at he
    cases hm : obj.message with
    | none => simp only [hm] at he; cases he
    | some content =>
      by_cases hu : obj.type?.getD "" = "user"
      · simp only [hm, if_pos hu] at he
        exact offs_user_events content sid _ _ off raw e he
      · by_cases ha : obj.type?.getD "" = "assistant"
        · simp only [hm, if_neg hu, if_pos ha] at he
          exact offs_assistant_events content sid _ _ off raw e he
        · simp only [hm, if_neg hu, if_neg ha] at he; cases he

lemma raw_none_tool_results_loop (items : List ContentItemR) (idx : Nat)
    (sid mu : String) (ts : Int) (off : Nat) (raw : String) :
    ∀ e ∈ extract_tool_results_loop items idx false sid mu ts off raw,
      e.raw_line = none := by
  induction items generalizing idx with
  | nil => intro e he; cases he
  | cons item rest ih =>
    intro e he
    simp only [extract_tool_results_loop] at he
    by_cases h1 : item.type? ≠ some "tool_result"
    · rw [if_pos h1] at he
      exact ih idx.succ e he
    · rw [if_neg h1] at he
      cases hrt : item.result_content.bind extract_text_from_raw_content with
      | none =>
        simp only [hrt] at he
        exact ih idx.succ e he
      | some text =>
        by_cases ht : text = ""
        · simp only [hrt, if_pos ht] at he
          exact ih idx.succ e he
        · simp only [hrt, if_neg ht] at he
          rcases List.mem_cons.mp he with h | h
          · subst h; rfl
          · exact ih idx.succ e h

lemma raw_none_assistant_loop (items : List ContentItemR) (idx : Nat)
    (sid mu : String) (ts : Int) (off : Nat) (raw : String) :
    ∀ e ∈ extract_assistant_loop items idx false sid mu ts off raw,
      e.raw_line = none := by
  induction items generalizing idx with
  | nil => intro e he; cases he
  | cons item rest ih =>
    intro e he
    simp only [extract_assistant_loop] at he
    by_cases h1 : item.type?.getD "" = "text"
    · rw [if_pos h1] at he
      by_cases ht : trimEmpty (item.text.getD "") = true
      · rw [if_pos ht] at he
        exact ih idx.succ e he
      · rw [if_neg ht] at he
        rcases List.mem_cons.mp he with h | h
        · subst h; rfl
        · exact ih idx.succ e h
    · rw [if_neg h1] at he
      by_cases h2 : item.type?.getD "" = "tool_use"
      · rw [if_pos h2] at he
        rcases List.mem_cons.mp he with h | h
        · subst h; rfl
        · exact ih idx.succ e h
      · rw [if_neg h2] at he
        exact ih idx.succ e he

/-- The raw-line shape of a (sub)list of events from one line: empty, or a
head carrying `some raw` with a raw-line-free tail. -/
def RawShape (raw : String) (evs : List ParsedEvent) : Prop :=
  evs = [] ∨ ∃ e rest, evs = e :: rest ∧ e.raw_line = some raw ∧
    ∀ x ∈ rest, x.raw_line = none

lemma raw_shape_tool_results_loop (items : List ContentItemR) (idx : Nat)
    (sid mu : String) (ts : Int) (off : Nat) (raw : String) :
    RawShape raw
      (extract_tool_results_loop items idx true sid mu ts off raw) := by
  induction items generalizing idx with
  | nil => exact Or.inl rfl
  | cons item rest ih =>
    simp only [extract_tool_results_loop]
    by_cases h1 : item.type? ≠ some "tool_result"
    · rw [if_pos h1]; exact ih idx.succ
    · rw [if_neg h1]
      cases hrt : item.result_content.bind extract_text_from_raw_content with
      | none => simp only [hrt]; exact ih idx.succ
      | some text =>
        by_cases ht : text = ""
        · simp only [hrt, if_pos ht]; exact ih idx.succ
        · simp only [hrt, if_neg ht]
          exact Or.inr ⟨_, _, rfl, rfl,
            raw_none_tool_results_loop rest idx.succ sid mu ts off raw⟩

lemma raw_shape_assistant_loop (items : List ContentItemR) (idx : Nat)
    (sid mu : String) (ts : Int) (off : Nat) (raw : String) :
    RawShape raw (extract_assistant_loop items idx true sid mu ts off raw) := by
  induction items generalizing idx with
  | nil => exact Or.inl rfl
  | cons item rest ih =>
    simp only [extract_assistant_loop]
    by_cases h1 : item.type?.getD "" = "text"
    · rw [if_pos h1]
      by_cases ht : trimEmpty (item.text.getD "") = true
      · rw [if_pos ht]; exact ih idx.succ
      · rw [if_neg ht]
        exact Or.inr ⟨_, _, rfl, rfl,
          raw_none_assistant_loop rest idx.succ sid mu ts off raw⟩
    · rw [if_neg h1]
      by_cases h2 : item.type?.getD "" = "tool_use"
      · rw [if_pos h2]
        exact Or.inr ⟨_, _, rfl, rfl,
          raw_none_assistant_loop rest idx.succ sid mu ts off raw⟩
      · rw [if_neg h2]; exact ih idx.succ

lemma raw_shape_user_events (content : Json) (sid mu : String) (ts : Int)
    (off : Nat) (raw : String) :
    RawShape raw (extract_user_events content sid mu ts off raw) := by
  unfold extract_user_events
  cases hct : contentItemsFromJson content with
  | some items =>
    by_cases hr : (items.any (fun item => item.type? = some "tool_result")) =
        true
    · simp only [hct, if_pos hr]
      exact raw_shape_tool_results_loop items 0 sid mu ts off raw
    · cases hx : extract_user_content_from_items items with
      | some text =>
        by_cases ht : trimEmpty text = true
        · simp only [hct, if_neg hr, hx, if_pos ht]; exact Or.inl rfl
        · simp only [hct, if_neg hr, hx, if_neg ht]
          exact Or.inr ⟨_, _, rfl, rfl, by intro x hx'; cases hx'⟩
      | none => simp only [hct, if_neg hr, hx]; exact Or.inl rfl
  | none =>
    cases content with
    | str text =>
      by_cases ht : trimEmpty text = true
      · simp only [hct, if_pos ht]; exact Or.inl rfl
      · simp only [hct, if_neg ht]
        exact Or.inr ⟨_, _, rfl, rfl, by intro x hx'; cases hx'⟩
    | null => simp only [hct]; exact Or.inl rfl
    | bool b => simp only [hct]; exact Or.inl rfl
    | num s => simp only [hct]; exact Or.inl rfl
    | arr l => simp only [hct]; exact Or.inl rfl
    | obj l => simp only [hct]; exact Or.inl rfl

lemma raw_shape_assistant_events (content : Json) (sid mu : String)
    (ts : Int) (off : Nat) (raw : String) :
    RawShape raw (extract_assistant_events content sid mu ts off raw) := by
  unfold extract_assistant_events
  cases hct : contentItemsFromJson content with
  | some items =>
    simp only [hct]
    exact raw_shape_assistant_loop items 0 sid mu ts off raw
  | none => simp only [hct]; exact Or.inl rfl

lemma raw_shape_extract_events (obj : RawLineR) (sid : String) (off : Nat)
    (raw : String) (now : Int) (gen : Nat → String) (ctr : Nat) :
    RawShape raw (extract_events obj sid off raw now gen ctr).1 := by
  unfold extract_events
  by_cases hskip : obj.type?.getD "" = "summary" ∨
      obj.type?.getD "" = "file-history-snapshot" ∨
      obj.type?.getD "" = "progress"
  · rw [if_pos hskip]; exact Or.inl rfl
  · rw [if_neg hskip]
    cases hm : obj.message with
    | none => simp only [hm]; exact Or.inl rfl
    | some content =>
      by_cases hu : obj.type?.getD "" = "user"
      · simp only [hm, if_pos hu]
        exact raw_shape_user_events content sid _ _ off raw
      · by_cases ha : obj.type?.getD "" = "assistant"
        · simp only [hm, if_neg hu, if_pos ha]
          exact raw_shape_assistant_events content sid _ _ off raw
        · simp only [hm, if_neg hu, if_neg ha]; exact Or.inl rfl

lemma line_step_spec (line : List Char) (pos : Nat) (sid : String)
    (now : Int) (gen : Nat → String) (st : LineAcc) :
    ∃ evs raw, raw ≠ "" ∧
      (line_step line pos sid now gen st).events = st.events ++ evs ∧
      (∀ e ∈ evs, e.source_offset = pos) ∧ RawShape raw evs := by
  unfold line_step
  by_cases htr : trimChars line = []
  · refine ⟨[], "x", by decide, ?_, ?_, Or.inl rfl⟩
    · rw [if_pos htr, List.append_nil]
    · intro e he; cases he
  · rw [if_neg htr]
    cases hobj : (parseJson (String.mk (trimChars line))).bind
        rawLineFromJson with
    | none =>
      refine ⟨[], "x", by decide, ?_, ?_, Or.inl rfl⟩
      · simp only [hobj, List.append_nil]
      · intro e he; cases he
    | some obj =>
      refine ⟨(extract_events obj sid pos (String.mk (trimChars line)) now
          gen st.ctr).1, String.mk (trimChars line), ?_, ?_, ?_, ?_⟩
      · intro hcon
        exact htr (congrArg String.data hcon)
      · simp only [hobj]
      · exact offs_extract_events obj sid pos _ now gen st.ctr
      · exact raw_shape_extract_events obj sid pos _ now gen st.ctr

lemma perOffsetRaw_append (old new : List ParsedEvent) (pos : Nat)
    (raw : String) (hb : ∀ e ∈ old, e.source_offset < pos)
    (hraw : PerOffsetRaw old) (hoffs : ∀ e ∈ new, e.source_offset = pos)
    (hne : raw ≠ "") (hshape : RawShape raw new) :
    PerOffsetRaw (old ++ new) := by
  intro o
  rw [List.filter_append]
  by_cases ho : o = pos
  · subst ho
    have hold : old.filter (fun e => e.source_offset = o) = [] := by
      rw [List.filter_eq_nil_iff]
      intro e he
      have := hb e he
      simp only [decide_eq_true_eq]
      omega
    rw [hold, List.nil_append]
    have hnew : new.filter (fun e => e.source_offset = o) = new := by
      rw [List.filter_eq_self]
      intro e he
      simp [hoffs e he]
    rw [hnew]
    rcases hshape with h | ⟨e, rest, hcons, hsome, hnone⟩
    · exact Or.inl h
    · exact Or.inr ⟨raw, e, rest, hne, hcons, hsome, hnone⟩
  · have hnew : new.filter (fun e => e.source_offset = o) = [] := by
      rw [List.filter_eq_nil_iff]
      intro e he
      simp only [decide_eq_true_eq, hoffs e he]
      exact fun hc => ho hc.symm
    rw [hnew, List.append_nil]
    exact hraw o

lemma parse_mmap_loop_perOffset (fuel : Nat) (data : List Char) (pos : Nat)
    (sid : String) (now : Int) (gen : Nat → String) (st : LineAcc)
    (lg : Nat) (hb : ∀ e ∈ st.events, e.source_offset < pos)
    (hraw : PerOffsetRaw st.events) :
    PerOffsetRaw
      (parse_mmap_loop fuel data pos sid now gen st lg).1.events := by
  induction fuel generalizing data pos st lg with
  | zero => exact hraw
  | succ fuel ih =>
    cases hsp : splitFirstLine data with
    | none => simp only [parse_mmap_loop, hsp]; exact hraw
    | some lr =>
      obtain ⟨line, rest⟩ := lr
      simp only [parse_mmap_loop, hsp]
      obtain ⟨evs, raw, hne, heq, hoffs, hshape⟩ :=
        line_step_spec line pos sid now gen st
      apply ih rest (pos + line.length + 1)
        (line_step line pos sid now gen st) (pos + line.length + 1)
      · intro e he
        rw [heq] at he
        rcases List.mem_append.mp he with h | h
        · have := hb e h; omega
        · have := hoffs e h; omega
      · rw [heq]
        exact perOffsetRaw_append st.events evs pos raw hb hraw hoffs hne
          hshape

lemma parse_buffered_loop_perOffset (fuel : Nat) (data : List Char)
    (pos : Nat) (sid : String) (now : Int) (gen : Nat → String)
    (st : LineAcc) (hb : ∀ e ∈ st.events, e.source_offset < pos)
    (hraw : PerOffsetRaw st.events) :
    PerOffsetRaw
      (parse_buffered_loop fuel data pos sid now gen st).1.events := by
  induction fuel generalizing data pos st with
  | zero => exact hraw
  | succ fuel ih =>
    cases hsp : splitFirstLine data with
    | none =>
      cases data with
      | nil => simp only [parse_buffered_loop, hsp]; exact hraw
      | cons c cs =>
        simp only [parse_buffered_loop, hsp]
        obtain ⟨evs, raw, hne, heq, hoffs, hshape⟩ :=
          line_step_spec (c :: cs) pos sid now gen st
        rw [heq]
        exact perOffsetRaw_append st.events evs pos raw hb hraw hoffs hne
          hshape
    | some lr =>
      obtain ⟨rawline, rest⟩ := lr
      simp only [parse_buffered_loop, hsp]
      obtain ⟨evs, raw, hne, heq, hoffs, hshape⟩ :=
        line_step_spec (stripCR rawline) pos sid now gen st
      apply ih rest (pos + (stripCR rawline).length + 1)
        (line_step (stripCR rawline) pos sid now gen st)
      · intro e he
        rw [heq] at he
        rcases List.mem_append.mp he with h | h
        · have := hb e h; omega
        · have := hoffs e h; omega
      · rw [heq]
        exact perOffsetRaw_append st.events evs pos raw hb hraw hoffs hne
          hshape

lemma parse_session_file_perOffset (content : List Char) (stem : String)
    (offset : Nat) (now : Int) (gen : Nat → String) :
    PerOffsetRaw (parse_session_file content stem offset now gen).events := by
  unfold parse_session_file
  by_cases h0 : content.length - offset = 0
  · rw [if_pos h0]; intro o; exact Or.inl rfl
  · rw [if_neg h0]
    by_cases hth : MMAP_THRESHOLD < content.length
    · rw [if_pos hth]
      unfold parse_mmap
      by_cases ho : offset < content.length
      · rw [if_pos ho]
        exact parse_mmap_loop_perOffset _ _ _ _ _ _ LineAcc.init _
          (by intro e he; cases he) (fun o => Or.inl rfl)
      · rw [if_neg ho]; intro o; exact Or.inl rfl
    · rw [if_neg hth]
      unfold parse_buffered
      exact parse_buffered_loop_perOffset _ _ _ _ _ _ LineAcc.init
        (by intro e he; cases he) (fun o => Or.inl rfl)

/-- C6: among the events `parse_session_file(path, 0)` produces from any
one source line (the events sharing that line's `source_offset`), exactly
one carries a non-empty `raw_line` — it is the first of them — and all its
siblings omit `raw_line`. -/
theorem c6_raw_line_unique_per_source_line (content : List Char)
    (stem : String) (now : Int) (gen : Nat → String) (o : Nat) :
    ((parse_session_file content stem 0 now gen).events.filter
      (fun e => e.source_offset = o)).isEmpty = false →
    (∃ raw e rest, raw ≠ "" ∧
      (parse_session_file content stem 0 now gen).events.filter
        (fun e => e.source_offset = o) = e :: rest ∧
      e.raw_line = some raw ∧ ∀ x ∈ rest, x.raw_line = none) ∧
    ((parse_session_file content stem 0 now gen).events.filter
      (fun e => e.source_offset = o)).countP
        (fun e => e.raw_line.isSome) = 1 := by
  intro hne
  rcases parse_session_file_perOffset content stem 0 now gen o with h | h
  · rw [h] at hne; cases hne
  · obtain ⟨raw, e, rest, hraw, heq, hsome, hnone⟩ := h
    refine ⟨⟨raw, e, rest, hraw, heq, hsome, hnone⟩, ?_⟩
    have hzero : rest.countP (fun e => e.raw_line.isSome) = 0 :=
      List.countP_eq_zero.mpr (fun x hx => by rw [hnone x hx]; simp)
    rw [heq, List.countP_cons, hzero, hsome]
    simp

/-- Witness for C6: one assistant line producing two sibling events, of
which exactly the first carries `raw_line`. -/
theorem c6_raw_line_unique_witness :
    ((parse_session_file c6content "s" 0 0 (fun _ => "g")).events.filter
      (fun e => e.source_offset = 0)).isEmpty = false ∧
    ((parse_session_file c6content "s" 0 0 (fun _ => "g")).events.filter
      (fun e => e.source_offset = 0)).length = 2 ∧
    (∃ raw e rest, raw ≠ "" ∧
      (parse_session_file c6content "s" 0 0 (fun _ => "g")).events.filter
        (fun e => e.source_offset = 0) = e :: rest ∧
      e.raw_line = some raw ∧ ∀ x ∈ rest, x.raw_line = none) ∧
    ((parse_session_file c6content "s" 0 0 (fun _ => "g")).events.filter
      (fun e => e.source_offset = 0)).countP
        (fun e => e.raw_line.isSome) = 1 :=
  ⟨by decide, by decide,
    (c6_raw_line_unique_per_source_line c6content "s" 0 (fun _ => "g") 0
      (by decide)).1,
    (c6_raw_line_unique_per_source_line c6content "s" 0 (fun _ => "g") 0
      (by decide)).2⟩

end Longhouse
